import Mathlib

/-!
Process supervision: Group, Cron, Shutdown.

A shallow embedding of `github.com/tradeo/golib/process` (`group.go`, `cron.go`,
`shutdown.go`) and the ticker abstraction of `github.com/tradeo/golib/util`.

* The Go interface `error` is `Option Err`: `none` is `nil`.
* A mutex-protected critical section is one atomic step; goroutines interleave
  between such steps, the interleaving being given by a list of events.
* `Cron.Run` first creates its ticker; `time.NewTicker` panics for a period that
  is not above zero, which is an exit of `Run` of its own.
* Calls made on collaborators (`Run` and `Stop` of a unit, the hooks of a job, the ticker)
  are recorded in a log so that "is invoked" can be stated.
-/

namespace process

/-! ## Errors -/

/-- The non-nil values an `error` can hold: the package variable `ErrShutdown`
(compared by identity in `group.go`) or any other error value. -/
inductive Err where
  | shutdown
  | failure (n : Nat)
  deriving DecidableEq, Repr

/-- The Go interface `error`; `none` is `nil`. -/
abbrev GoError := Option Err

/-- The package variable `ErrShutdown` (shutdown.go:16). -/
def ErrShutdown : GoError := some Err.shutdown

/-! ## Group (group.go) -/

/-- A value of the `Process` interface, identified by a number. -/
abbrev Process := Nat

/-- The fields of `type Group struct`; the mutex `mu` is modelled by the
atomicity of the critical sections. -/
structure Group where
  wg : Nat
  stopped : Bool
  stopErr : GoError
  processes : List Process
  deriving DecidableEq, Repr

/-- Program counter of the goroutine spawned at group.go:40. -/
inductive Pc where
  | run
  | update (err : GoError)
  | stop (err : GoError)
  | exit (err : GoError)
  | finished (err : GoError)
  deriving DecidableEq, Repr

/-- A spawned goroutine: the process it runs and where it stands. -/
structure Routine where
  ps : Process
  pc : Pc
  deriving DecidableEq, Repr

/-- Calls observed during a run of a Group. -/
inductive Obs where
  | run (ps : Process)
  | outcome (err : GoError)
  | groupStop
  | unitStop (ps : Process)
  deriving DecidableEq, Repr

/-- A Group together with the goroutines it spawned and the observed calls. -/
structure World where
  psg : Group
  routines : List Routine
  log : List Obs
  deriving DecidableEq, Repr

/-- The constructor `NewGroup` (group.go:23). -/
def NewGroup : World :=
  { psg := { wg := 0, stopped := false, stopErr := none, processes := [] },
    routines := [], log := [] }

/-- One iteration of the loop at group.go:38: `wg.Add(1)` and `go func(ps)`. -/
def Group.spawn (w : World) (ps : Process) : World :=
  { psg := { w.psg with wg := w.psg.wg + 1 },
    routines := w.routines ++ [{ ps := ps, pc := Pc.run }],
    log := w.log ++ [Obs.run ps] }

/-- The method `Group.AddAndRun` (group.go:30), the part executed under the lock. -/
def Group.AddAndRun (w : World) (processes : List Process) : World :=
  if w.psg.stopped then w
  else
    processes.foldl Group.spawn
      { w with psg := { w.psg with processes := w.psg.processes ++ processes } }

/-- The method `Group.updateStopError` (group.go:55). -/
def Group.updateStopError (w : World) (err : GoError) : World :=
  if w.psg.stopErr ≠ none then w
  else { w with psg := { w.psg with stopErr := err } }

/-- The method `Group.Wait` (group.go:66): `none` while `wg.Wait()` blocks. -/
def Group.Wait (w : World) : Option GoError :=
  if w.psg.wg = 0 then some w.psg.stopErr else none

/-- The call `ps.Stop()` at group.go:82. -/
def Group.callStop (w : World) (ps : Process) : World :=
  { w with log := w.log ++ [Obs.unitStop ps] }

/-- The method `Group.stopLocked` (group.go:74). -/
def Group.stopLocked (w : World) : World :=
  if w.psg.stopped then w
  else
    w.psg.processes.foldl Group.callStop
      { w with psg := { w.psg with stopped := true } }

/-- The method `Group.Stop` (group.go:87). -/
def Group.Stop (w : World) : World :=
  Group.stopLocked w

/-- The next statement of goroutine `i` (group.go:41-50), after `ps.Run()`
returned: the `ErrShutdown` test with `updateStopError`, then the `nil` test
with `psg.Stop()`, then the deferred `wg.Done()`. -/
def goroutineStep (w : World) (i : Nat) : Option World :=
  match w.routines[i]? with
  | some ⟨ps, Pc.update err⟩ =>
      let w1 := if err ≠ ErrShutdown then Group.updateStopError w err else w
      some { w1 with routines := w1.routines.set i ⟨ps, Pc.stop err⟩,
                     log := w1.log ++ [Obs.outcome err] }
  | some ⟨ps, Pc.stop err⟩ =>
      let w1 := if err ≠ none then
          Group.Stop { w with log := w.log ++ [Obs.groupStop] } else w
      some { w1 with routines := w1.routines.set i ⟨ps, Pc.exit err⟩ }
  | some ⟨ps, Pc.exit err⟩ =>
      some { w with psg := { w.psg with wg := w.psg.wg - 1 },
                    routines := w.routines.set i ⟨ps, Pc.finished err⟩ }
  | _ => none

/-- What can happen next to a Group. -/
inductive Event where
  | addAndRun (processes : List Process)
  | stop
  | runReturns (i : Nat) (err : GoError)
  | advance (i : Nat)
  deriving DecidableEq, Repr

/-- One atomic step; `none` when the event is not enabled. -/
def step (w : World) : Event → Option World
  | Event.addAndRun processes => some (Group.AddAndRun w processes)
  | Event.stop => some (Group.Stop { w with log := w.log ++ [Obs.groupStop] })
  | Event.runReturns i err =>
      match w.routines[i]? with
      | some ⟨ps, Pc.run⟩ =>
          some { w with routines := w.routines.set i ⟨ps, Pc.update err⟩ }
      | _ => none
  | Event.advance i => goroutineStep w i

/-- Run a schedule of events from a state. -/
def exec : World → List Event → Option World
  | w, [] => some w
  | w, e :: es => (step w e).bind fun w1 => exec w1 es

/-- The outcomes in the order in which the goroutines reached group.go:44. -/
def outcomes : List Obs → List GoError
  | [] => []
  | Obs.outcome err :: l => err :: outcomes l
  | _ :: l => outcomes l

/-- The `ps.Stop()` calls, in order. -/
def unitStops : List Obs → List Process
  | [] => []
  | Obs.unitStop ps :: l => ps :: unitStops l
  | _ :: l => unitStops l

/-- The started units, in order. -/
def started : List Obs → List Process
  | [] => []
  | Obs.run ps :: l => ps :: started l
  | _ :: l => started l

/-- Number of `psg.Stop()` invocations. -/
def groupStops (log : List Obs) : Nat :=
  log.count Obs.groupStop

/-- An outcome that is neither nil nor the ErrShutdown marker. -/
def ordinary (e : GoError) : Prop :=
  e ≠ none ∧ e ≠ ErrShutdown

instance (e : GoError) : Decidable (ordinary e) := by
  unfold ordinary; infer_instance

/-- The first outcome that is an ordinary failure, nil if there is none. -/
def firstFailure : List GoError → GoError
  | [] => none
  | e :: l => if ordinary e then e else firstFailure l



/-- The goroutine has executed group.go:44-46 holding outcome `e`. -/
def pastUpdate (pc : Pc) (e : GoError) : Prop :=
  pc = Pc.stop e ∨ pc = Pc.exit e ∨ pc = Pc.finished e

/-- The goroutine has executed group.go:48-50 holding outcome `e`. -/
def pastStop (pc : Pc) (e : GoError) : Prop :=
  pc = Pc.exit e ∨ pc = Pc.finished e

/-- The goroutine has not yet executed `wg.Done()`. -/
def live (r : Routine) : Bool :=
  match r.pc with
  | Pc.finished _ => false
  | _ => true

/-- Every spawned goroutine has run to its end. -/
def allFinished (w : World) : Prop :=
  ∀ r ∈ w.routines, live r = false

instance (w : World) : Decidable (allFinished w) := by
  unfold allFinished; infer_instance

/-- The goroutine has invoked `psg.Stop()` at group.go:49. -/
def stopper (r : Routine) : Bool :=
  match r.pc with
  | Pc.exit (some _) => true
  | Pc.finished (some _) => true
  | _ => false

/-- Invariant of the states reachable from `NewGroup`. -/
structure Inv (w : World) : Prop where
  err : w.psg.stopErr = firstFailure (outcomes w.log)
  wg : w.psg.wg = w.routines.countP live
  stops : unitStops w.log = if w.psg.stopped then w.psg.processes else []
  procs : w.psg.processes = w.routines.map Routine.ps
  runs : started w.log = w.psg.processes
  out_mem : ∀ e ∈ outcomes w.log, ∃ r ∈ w.routines, pastUpdate r.pc e
  mem_out : ∀ r ∈ w.routines, ∀ e, pastUpdate r.pc e → e ∈ outcomes w.log
  halted : ∀ r ∈ w.routines, ∀ e, pastStop r.pc e → e ≠ none → w.psg.stopped = true

/-! ### Sample runs of a Group -/

/-- An ordinary failure. -/
def errA : GoError := some (Err.failure 1)

/-- Another ordinary failure. -/
def errB : GoError := some (Err.failure 2)

/-- Two units fail; the outcome of the second is recorded first. -/
def schedTwoFailures : List Event :=
  [Event.addAndRun [10, 20], Event.runReturns 0 errA, Event.runReturns 1 errB,
   Event.advance 1, Event.advance 0, Event.advance 0, Event.advance 1,
   Event.advance 0, Event.advance 1]

/-- A shutdown unit fires; the other unit then returns nil. -/
def schedShutdown : List Event :=
  [Event.addAndRun [10, 20], Event.runReturns 0 ErrShutdown, Event.advance 0,
   Event.advance 0, Event.runReturns 1 none, Event.advance 1, Event.advance 1,
   Event.advance 1, Event.advance 0]

/-- Three units, the middle one fails, a late `AddAndRun` is dropped. -/
def schedOneFailure : List Event :=
  [Event.addAndRun [10, 20], Event.addAndRun [30], Event.runReturns 0 none,
   Event.advance 0, Event.advance 0, Event.advance 0, Event.runReturns 1 errA,
   Event.advance 1, Event.advance 1, Event.addAndRun [40], Event.advance 1,
   Event.runReturns 2 none, Event.advance 2, Event.advance 2, Event.advance 2]

/-- The state `schedTwoFailures` ends in. -/
def worldTwoFailures : World :=
  { psg := { wg := 0, stopped := true, stopErr := errB, processes := [10, 20] },
    routines := [{ ps := 10, pc := Pc.finished errA }, { ps := 20, pc := Pc.finished errB }],
    log := [Obs.run 10, Obs.run 20, Obs.outcome errB, Obs.outcome errA, Obs.groupStop,
            Obs.unitStop 10, Obs.unitStop 20, Obs.groupStop] }

/-- The state after the first four events of `schedTwoFailures`. -/
def worldRecorded : World :=
  { psg := { wg := 2, stopped := false, stopErr := errB, processes := [10, 20] },
    routines := [{ ps := 10, pc := Pc.update errA }, { ps := 20, pc := Pc.stop errB }],
    log := [Obs.run 10, Obs.run 20, Obs.outcome errB] }

/-- The state `schedShutdown` ends in. -/
def worldShutdown : World :=
  { psg := { wg := 0, stopped := true, stopErr := none, processes := [10, 20] },
    routines := [{ ps := 10, pc := Pc.finished ErrShutdown }, { ps := 20, pc := Pc.finished none }],
    log := [Obs.run 10, Obs.run 20, Obs.outcome ErrShutdown, Obs.groupStop,
            Obs.unitStop 10, Obs.unitStop 20, Obs.outcome none] }

/-- The state `schedOneFailure` ends in. -/
def worldOneFailure : World :=
  { psg := { wg := 0, stopped := true, stopErr := errA, processes := [10, 20, 30] },
    routines := [{ ps := 10, pc := Pc.finished none }, { ps := 20, pc := Pc.finished errA },
                 { ps := 30, pc := Pc.finished none }],
    log := [Obs.run 10, Obs.run 20, Obs.run 30, Obs.outcome none, Obs.outcome errA,
            Obs.groupStop, Obs.unitStop 10, Obs.unitStop 20, Obs.unitStop 30,
            Obs.outcome none] }

/-! ## Channels and run-time panics -/

/-- Run-time panics that the modelled code can raise. -/
inductive Panic where
  | closeOfClosedChannel
  | nonPositiveInterval
  deriving DecidableEq, Repr

/-- A `chan struct{}` on which nothing is ever sent: it is open or closed. -/
structure Chan where
  closed : Bool
  deriving DecidableEq, Repr

/-- The builtin `close`: closing a closed channel panics. -/
def Chan.close (c : Chan) : Except Panic Chan :=
  if c.closed then Except.error Panic.closeOfClosedChannel
  else Except.ok { closed := true }

/-- The type `time.Duration`. -/
abbrev Duration := Int

/-! ## Tickers (ticker.go) -/

/-- The implementations of the interface `util.Ticker`. -/
inductive Ticker where
  | TimeTicker (period : Duration)
  | TestTicker
  deriving DecidableEq, Repr

/-- The implementations of the interface `util.TickerFactory`. -/
inductive TickerFactory where
  | DefaultTickerFactory
  | TestTickerFactory
  deriving DecidableEq, Repr

/-- The function `time.NewTicker`: the duration must be greater than zero, if
not it panics. -/
def NewTicker (d : Duration) : Except Panic Ticker :=
  if d ≤ 0 then Except.error Panic.nonPositiveInterval
  else Except.ok (Ticker.TimeTicker d)

/-- The method `Create` of `DefaultTickerFactory` (ticker.go:37), which calls
`time.NewTicker`, and of `TestTickerFactory` (ticker.go:67). -/
def TickerFactory.Create : TickerFactory → Duration → Except Panic Ticker
  | TickerFactory.DefaultTickerFactory, period => NewTicker period
  | TickerFactory.TestTickerFactory, _ => Except.ok Ticker.TestTicker

/-! ## Cron (cron.go) -/

/-- The fields `period`, `stopped`, `done` and `tickerFactory` of
`type Cron struct`; the job is the collaborator handed to `Cron.Run`. -/
structure Cron where
  period : Duration
  stopped : Nat
  done : Chan
  tickerFactory : TickerFactory
  deriving DecidableEq, Repr

/-- The constructor `NewCron` (cron.go:38): it installs the default ticker
factory. -/
def NewCron (period : Duration) : Cron :=
  { period := period, stopped := 0, done := { closed := false },
    tickerFactory := TickerFactory.DefaultTickerFactory }

/-- The function `atomic.CompareAndSwapUint32`: the new content and whether it swapped. -/
def CompareAndSwapUint32 (val old new : Nat) : Nat × Bool :=
  if val = old then (new, true) else (val, false)

/-- The method `Cron.Stop` (cron.go:49): the new state with the returned error, or a panic. -/
def Cron.Stop (c : Cron) : Except Panic (Cron × GoError) :=
  let r := CompareAndSwapUint32 c.stopped 0 1
  if r.2 then
    match c.done.close with
    | Except.ok d => Except.ok ({ c with stopped := r.1, done := d }, none)
    | Except.error p => Except.error p
  else Except.ok ({ c with stopped := r.1 }, none)

/-- Behaviour of a `CronJob`: what `Begin(period)` returns and what the call
number `n` (from 0) of `Exec()` returns. -/
structure CronJob where
  Begin : Duration → GoError
  Exec : Nat → GoError

/-- Calls and channel receives made by `Cron.Run`, in order. -/
inductive Call where
  | tickerCreate (period : Duration)
  | jobBegin (period : Duration)
  | jobExec
  | jobEnd
  | tickerStop
  | recvTick
  | recvDone
  deriving DecidableEq, Repr

/-- What the `select` of cron.go:74 receives next. -/
inductive Wake where
  | tick
  | stop
  deriving DecidableEq, Repr

/-- The loop of cron.go:73-83, `n` Exec calls having been made. The list holds
what the successive `select`s receive; when it is exhausted no tick arrives any
more, so the `select` takes the `done` case if `done` is already closed and
blocks forever (`none`) otherwise. -/
def Cron.loop (c : Cron) (job : CronJob) : Nat → List Wake → Option (GoError × List Call)
  | _, [] => if c.done.closed then some (none, [Call.recvDone]) else none
  | _, Wake.stop :: _ => some (none, [Call.recvDone])
  | n, Wake.tick :: evs =>
      match job.Exec n with
      | some e => some (some e, [Call.recvTick, Call.jobExec])
      | none =>
          (Cron.loop c job (n + 1) evs).map fun r =>
            (r.1, Call.recvTick :: Call.jobExec :: r.2)

/-- How a call of `Cron.Run` ends: it returns an error value or it panics. -/
inductive Exit where
  | returned (err : GoError)
  | panicked (p : Panic)
  deriving DecidableEq, Repr

/-- The body of `Cron.Run` after the two `defer` statements (cron.go:63-83):
the returned error and the calls made. -/
def Cron.body (c : Cron) (job : CronJob) (evs : List Wake) : Option (GoError × List Call) :=
  match job.Begin c.period with
  | some e => some (some e, [Call.jobBegin c.period])
  | none =>
      match job.Exec 0 with
      | some e => some (some e, [Call.jobBegin c.period, Call.jobExec])
      | none =>
          (Cron.loop c job 1 evs).map fun r =>
            (r.1, Call.jobBegin c.period :: Call.jobExec :: r.2)

/-- The method `Cron.Run` (cron.go:58): how it ends and the calls made, or
`none` when it blocks forever. The ticker is created first (cron.go:59); when
that panics nothing is deferred yet and no further call is made. Otherwise the
two deferred calls run last, in reverse order of their `defer`. -/
def Cron.Run (c : Cron) (job : CronJob) (evs : List Wake) : Option (Exit × List Call) :=
  match c.tickerFactory.Create c.period with
  | Except.error p => some (Exit.panicked p, [Call.tickerCreate c.period])
  | Except.ok _ =>
      (Cron.body c job evs).map fun r =>
        (Exit.returned r.1,
          Call.tickerCreate c.period :: (r.2 ++ [Call.jobEnd, Call.tickerStop]))

/-! ## Shutdown (shutdown.go) -/

/-- The signals registered at shutdown.go:38. -/
inductive Signal where
  | SIGTERM
  | Interrupt
  deriving DecidableEq, Repr

/-- The type `sync.Once`. -/
structure Once where
  done : Bool
  deriving DecidableEq, Repr

/-- The method `Once.Do(f)` for an `f` acting on a state of type `σ`. -/
def Once.Do {σ : Type} (o : Once) (f : σ → Except Panic σ) (s : σ) :
    Except Panic (Once × σ) :=
  if o.done then Except.ok (o, s)
  else
    match f s with
    | Except.ok s1 => Except.ok ({ done := true }, s1)
    | Except.error p => Except.error p

/-- The fields of `type Shutdown struct` (the logger apart); `sig` is the
buffered channel of capacity one. -/
structure Shutdown where
  gracePeriod : Duration
  sig : Option Signal
  once : Once
  done : Chan
  deriving DecidableEq, Repr

/-- The constructor `NewShutdown` (shutdown.go:30). -/
def NewShutdown (gracePeriod : Duration) : Shutdown :=
  { gracePeriod := gracePeriod, sig := none, once := { done := false },
    done := { closed := false } }

/-- The runtime relays a registered signal: a non-blocking send on `sig`. -/
def Shutdown.deliver (s : Shutdown) (sg : Signal) : Shutdown :=
  match s.sig with
  | some _ => s
  | none => { s with sig := some sg }

/-- The method `Shutdown.Stop` (shutdown.go:51). -/
def Shutdown.Stop (s : Shutdown) : Except Panic (Shutdown × GoError) :=
  match s.once.Do Chan.close s.done with
  | Except.ok r => Except.ok ({ s with once := r.1, done := r.2 }, none)
  | Except.error p => Except.error p

/-- Statements of the goroutine started by `ensureTermination`. -/
inductive Action where
  | sleep (d : Duration)
  | errorf
  | exit (code : Int)
  deriving DecidableEq, Repr

/-- Effects of `Shutdown.Run`, in order. -/
inductive Effect where
  | infof (sg : Signal)
  | info
  | spawn (body : List Action)
  deriving DecidableEq, Repr

/-- The method `Shutdown.ensureTermination` (shutdown.go:42): the goroutine it starts. -/
def Shutdown.ensureTermination (s : Shutdown) : Effect :=
  Effect.spawn [Action.sleep s.gracePeriod, Action.errorf, Action.exit 1]

/-- The case the `select` of shutdown.go:61 takes: `some (some sg)` when it
receives `sg` from `sig`, `some none` when it receives from the closed `done`,
`none` while it blocks. With both ready the choice is `pick`. -/
def Shutdown.select (s : Shutdown) (pick : Bool) : Option (Option Signal) :=
  match s.sig, s.done.closed with
  | some sg, false => some (some sg)
  | some sg, true => if pick then some (some sg) else some none
  | none, true => some none
  | none, false => none

/-- The method `Shutdown.Run` (shutdown.go:60): the state, the returned error and the
effects, or `none` while the `select` blocks. -/
def Shutdown.Run (s : Shutdown) (pick : Bool) : Option (Shutdown × GoError × List Effect) :=
  match Shutdown.select s pick with
  | some (some sg) =>
      some ({ s with sig := none }, ErrShutdown, [Effect.infof sg, s.ensureTermination])
  | some none => some (s, none, [Effect.info, s.ensureTermination])
  | none => none

/-- The time-stamped statements a goroutine body executes when started at time
`t`, up to the process exit. `time.Sleep d` returns after at least `d` (at once
for a non-positive `d`); `lag` is the delay beyond `d`. -/
def timeline (lag : Nat) : Int → List Action → List (Int × Action)
  | _, [] => []
  | t, Action.sleep d :: rest => timeline lag (t + max d 0 + lag) rest
  | t, Action.exit code :: _ => [(t, Action.exit code)]
  | t, Action.errorf :: rest => (t, Action.errorf) :: timeline lag t rest

/-- The goroutines an effect list starts. -/
def spawned : List Effect → List (List Action)
  | [] => []
  | Effect.spawn body :: l => body :: spawned l
  | _ :: l => spawned l

/-! ### Sample inputs -/

/-- A stopped Group with one managed unit. -/
def worldStopped : World :=
  { psg := { wg := 0, stopped := true, stopErr := errA, processes := [10] },
    routines := [{ ps := 10, pc := Pc.finished errA }],
    log := [Obs.run 10, Obs.outcome errA, Obs.groupStop, Obs.unitStop 10] }

/-- The calls of `k` loop iterations that receive a tick: a receive from the
ticker channel followed by `Exec`, `k` times. -/
def ticks : Nat → List Call
  | 0 => []
  | k + 1 => Call.recvTick :: Call.jobExec :: ticks k

/-- A job whose hooks always succeed. -/
def jobOk : CronJob :=
  { Begin := fun _ => none, Exec := fun _ => none }

/-- A job whose `Begin` fails. -/
def jobBadBegin : CronJob :=
  { Begin := fun _ => errA, Exec := fun _ => none }

/-- A job whose third `Exec` fails. -/
def jobThirdFails : CronJob :=
  { Begin := fun _ => none, Exec := fun n => if n = 2 then errB else none }

/-! ## Lemmas and theorems -/

theorem outcomes_append (l1 l2 : List Obs) :
    outcomes (l1 ++ l2) = outcomes l1 ++ outcomes l2 := by
  induction l1 with
  | nil => rfl
  | cons o l ih => cases o <;> simp [outcomes, ih]

theorem unitStops_append (l1 l2 : List Obs) :
    unitStops (l1 ++ l2) = unitStops l1 ++ unitStops l2 := by
  induction l1 with
  | nil => rfl
  | cons o l ih => cases o <;> simp [unitStops, ih]

theorem started_append (l1 l2 : List Obs) :
    started (l1 ++ l2) = started l1 ++ started l2 := by
  induction l1 with
  | nil => rfl
  | cons o l ih => cases o <;> simp [started, ih]

theorem groupStops_append (l1 l2 : List Obs) :
    groupStops (l1 ++ l2) = groupStops l1 + groupStops l2 := by
  simp [groupStops]

theorem obs_map_run (ps : List Process) :
    outcomes (ps.map Obs.run) = [] ∧ unitStops (ps.map Obs.run) = [] ∧
    started (ps.map Obs.run) = ps ∧ groupStops (ps.map Obs.run) = 0 := by
  induction ps with
  | nil => simp [outcomes, unitStops, started, groupStops]
  | cons p l ih =>
    obtain ⟨h1, h2, h3, h4⟩ := ih
    simp only [groupStops] at h4
    simp [outcomes, unitStops, started, groupStops, h1, h2, h3, h4]

theorem obs_map_unitStop (ps : List Process) :
    outcomes (ps.map Obs.unitStop) = [] ∧ unitStops (ps.map Obs.unitStop) = ps ∧
    started (ps.map Obs.unitStop) = [] ∧ groupStops (ps.map Obs.unitStop) = 0 := by
  induction ps with
  | nil => simp [outcomes, unitStops, started, groupStops]
  | cons p l ih =>
    obtain ⟨h1, h2, h3, h4⟩ := ih
    simp only [groupStops] at h4
    simp [outcomes, unitStops, started, groupStops, h1, h2, h3, h4]

theorem foldl_spawn (ps : List Process) (w : World) :
    ps.foldl Group.spawn w =
      { psg := { w.psg with wg := w.psg.wg + ps.length },
        routines := w.routines ++ ps.map (fun p => { ps := p, pc := Pc.run }),
        log := w.log ++ ps.map Obs.run } := by
  induction ps generalizing w with
  | nil => simp
  | cons p l ih =>
    simp only [List.foldl_cons, ih, Group.spawn, List.length_cons, List.map_cons,
      List.append_assoc, List.singleton_append]
    congr 2
    omega

theorem foldl_callStop (ps : List Process) (w : World) :
    ps.foldl Group.callStop w = { w with log := w.log ++ ps.map Obs.unitStop } := by
  induction ps generalizing w with
  | nil => simp
  | cons p l ih =>
    simp only [List.foldl_cons, ih, Group.callStop, List.map_cons,
      List.append_assoc, List.singleton_append]

theorem mem_set_self_of {α : Type} (l : List α) (i : Nat) (a b : α)
    (h : l[i]? = some a) : b ∈ l.set i b := by
  induction l generalizing i with
  | nil => simp at h
  | cons x l ih =>
    cases i with
    | zero => simp
    | succ i => simp only [List.set_cons_succ, List.mem_cons]; right; exact ih i (by simpa using h)

theorem mem_set_of_mem {α : Type} (l : List α) (i : Nat) (a b r : α)
    (h : l[i]? = some a) (hr : r ∈ l) : r = a ∨ r ∈ l.set i b := by
  induction l generalizing i with
  | nil => simp at h
  | cons x l ih =>
    cases i with
    | zero =>
      simp only [List.getElem?_cons_zero, Option.some.injEq] at h
      simp only [List.mem_cons] at hr
      rcases hr with hr | hr
      · left; rw [hr, h]
      · right; simp [hr]
    | succ i =>
      simp only [List.mem_cons] at hr
      rcases hr with hr | hr
      · right; simp [hr]
      · rcases ih i (by simpa using h) hr with h1 | h1
        · left; exact h1
        · right; simp [h1]

theorem mem_of_getElem? {α : Type} (l : List α) (i : Nat) (a : α)
    (h : l[i]? = some a) : a ∈ l := by
  rw [List.getElem?_eq_some] at h
  obtain ⟨hi, rfl⟩ := h
  exact List.getElem_mem hi

theorem countP_set {α : Type} (p : α → Bool) (l : List α) (i : Nat) (a b : α)
    (h : l[i]? = some a) :
    (l.set i b).countP p + (if p a then 1 else 0) =
      l.countP p + (if p b then 1 else 0) := by
  induction l generalizing i with
  | nil => simp at h
  | cons x l ih =>
    cases i with
    | zero =>
      simp only [List.getElem?_cons_zero, Option.some.injEq] at h
      subst h
      simp only [List.set_cons_zero, List.countP_cons]
      omega
    | succ i =>
      have := ih i (by simpa using h)
      simp only [List.set_cons_succ, List.countP_cons]
      omega

theorem map_set_of_eq {α β : Type} (f : α → β) (l : List α) (i : Nat) (a b : α)
    (h : l[i]? = some a) (hf : f b = f a) : (l.set i b).map f = l.map f := by
  induction l generalizing i with
  | nil => simp
  | cons x l ih =>
    cases i with
    | zero =>
      simp only [List.getElem?_cons_zero, Option.some.injEq] at h
      subst h
      simp [hf]
    | succ i =>
      simp only [List.set_cons_succ, List.map_cons, List.cons.injEq, true_and]
      exact ih i (by simpa using h)

theorem firstFailure_append (l : List GoError) (e : GoError) :
    firstFailure (l ++ [e]) =
      if firstFailure l ≠ none then firstFailure l
      else if ordinary e then e else none := by
  induction l with
  | nil => simp [firstFailure]
  | cons x l ih =>
    simp only [List.cons_append, firstFailure]
    by_cases hx : ordinary x
    · have : x ≠ none := hx.1
      simp [hx, this]
    · simp only [hx, if_false]; exact ih

theorem spawned_facts (ps : List Process) :
    (ps.map (fun p => ({ ps := p, pc := Pc.run } : Routine))).countP live = ps.length ∧
    (ps.map (fun p => ({ ps := p, pc := Pc.run } : Routine))).countP stopper = 0 ∧
    (ps.map (fun p => ({ ps := p, pc := Pc.run } : Routine))).map Routine.ps = ps := by
  induction ps with
  | nil => simp
  | cons p l ih =>
    obtain ⟨h1, h2, h3⟩ := ih
    refine ⟨?_, ?_, ?_⟩
    · simp only [List.map_cons, List.countP_cons, h1, live]; simp
    · simp only [List.map_cons, List.countP_cons, h2, stopper]; simp
    · simp only [List.map_cons, h3]

theorem inv_NewGroup : Inv NewGroup := by
  constructor <;> simp [NewGroup, firstFailure, outcomes, unitStops, started]

theorem inv_AddAndRun (w : World) (ps : List Process) (h : Inv w) :
    Inv (Group.AddAndRun w ps) := by
  unfold Group.AddAndRun
  by_cases hs : w.psg.stopped = true
  · simpa [hs] using h
  · simp only [hs, Bool.false_eq_true, if_false, foldl_spawn]
    obtain ⟨h1, h2, h3, _⟩ := obs_map_run ps
    constructor
    · simp [outcomes_append, h1, h.err]
    · simp only [List.countP_append, h.wg, (spawned_facts ps).1]
    · simp [unitStops_append, h2, h.stops, hs]
    · simp only [List.map_append, (spawned_facts ps).2.2, h.procs]
    · simp [started_append, h3, h.runs]
    · intro e he
      simp only [outcomes_append, h1, List.append_nil] at he
      obtain ⟨r, hr, hp⟩ := h.out_mem e he
      exact ⟨r, by simp [hr], hp⟩
    · intro r hr e hp
      simp only [outcomes_append, h1, List.append_nil]
      simp only [List.mem_append, List.mem_map] at hr
      rcases hr with hr | ⟨p, _, rfl⟩
      · exact h.mem_out r hr e hp
      · simp [pastUpdate] at hp
    · intro r hr e hp hne
      simp only [List.mem_append, List.mem_map] at hr
      rcases hr with hr | ⟨p, _, rfl⟩
      · exact absurd (h.halted r hr e hp hne) hs
      · simp [pastStop] at hp
theorem inv_logStop (w : World) (h : Inv w) :
    Inv { w with log := w.log ++ [Obs.groupStop] } := by
  constructor
  · simpa [outcomes_append, outcomes] using h.err
  · exact h.wg
  · simpa [unitStops_append, unitStops] using h.stops
  · exact h.procs
  · simpa [started_append, started] using h.runs
  · intro e he
    exact h.out_mem e (by simpa [outcomes_append, outcomes] using he)
  · intro r hr e hp
    simpa [outcomes_append, outcomes] using h.mem_out r hr e hp
  · exact h.halted

theorem stopLocked_stopped (w : World) : (Group.stopLocked w).psg.stopped = true := by
  unfold Group.stopLocked
  by_cases hs : w.psg.stopped = true
  · simp [hs]
  · simp [hs, foldl_callStop]

theorem inv_stopLocked (w : World) (h : Inv w) : Inv (Group.stopLocked w) := by
  unfold Group.stopLocked
  by_cases hs : w.psg.stopped = true
  · simpa [hs] using h
  · simp only [hs, Bool.false_eq_true, if_false, foldl_callStop]
    obtain ⟨h1, h2, h3, _⟩ := obs_map_unitStop w.psg.processes
    constructor
    · simp [outcomes_append, h1, h.err]
    · exact h.wg
    · simp [unitStops_append, h2, h.stops, hs]
    · exact h.procs
    · simp [started_append, h3, h.runs]
    · intro e he
      exact h.out_mem e (by simpa [outcomes_append, h1] using he)
    · intro r hr e hp
      simpa [outcomes_append, h1] using h.mem_out r hr e hp
    · intro r hr e hp hne
      rfl

theorem inv_runReturns (w : World) (i : Nat) (ps : Process) (err : GoError)
    (h : Inv w) (hi : w.routines[i]? = some ⟨ps, Pc.run⟩) :
    Inv { w with routines := w.routines.set i ⟨ps, Pc.update err⟩ } := by
  constructor
  · exact h.err
  · have := countP_set live w.routines i _ ⟨ps, Pc.update err⟩ hi
    simp only [live] at this
    simp only [h.wg]
    omega
  · exact h.stops
  · simp only [h.procs]
    exact (map_set_of_eq Routine.ps w.routines i _ ⟨ps, Pc.update err⟩ hi rfl).symm
  · exact h.runs
  · intro e he
    obtain ⟨r, hr, hp⟩ := h.out_mem e he
    rcases mem_set_of_mem w.routines i _ ⟨ps, Pc.update err⟩ r hi hr with h1 | h1
    · subst h1; simp [pastUpdate] at hp
    · exact ⟨r, h1, hp⟩
  · intro r hr e hp
    rcases List.mem_or_eq_of_mem_set hr with h1 | h1
    · exact h.mem_out r h1 e hp
    · subst h1; simp [pastUpdate] at hp
  · intro r hr e hp hne
    rcases List.mem_or_eq_of_mem_set hr with h1 | h1
    · exact h.halted r h1 e hp hne
    · subst h1; simp [pastStop] at hp
theorem inv_recorded (w : World) (i : Nat) (ps : Process) (err x : GoError)
    (h : Inv w) (hi : w.routines[i]? = some ⟨ps, Pc.update err⟩)
    (hx : x = firstFailure (outcomes w.log ++ [err])) :
    Inv { psg := { w.psg with stopErr := x },
          routines := w.routines.set i ⟨ps, Pc.stop err⟩,
          log := w.log ++ [Obs.outcome err] } := by
  constructor
  · simpa [outcomes_append, outcomes] using hx
  · have := countP_set live w.routines i _ ⟨ps, Pc.stop err⟩ hi
    simp only [live] at this
    simp only [h.wg]
    omega
  · simpa [unitStops_append, unitStops] using h.stops
  · simp only [h.procs]
    exact (map_set_of_eq Routine.ps w.routines i _ ⟨ps, Pc.stop err⟩ hi rfl).symm
  · simpa [started_append, started] using h.runs
  · intro e he
    simp only [outcomes_append, outcomes, List.mem_append, List.mem_singleton] at he
    rcases he with he | he
    · obtain ⟨r, hr, hp⟩ := h.out_mem e he
      rcases mem_set_of_mem w.routines i _ ⟨ps, Pc.stop err⟩ r hi hr with h1 | h1
      · subst h1; simp [pastUpdate] at hp
      · exact ⟨r, h1, hp⟩
    · subst he
      exact ⟨_, mem_set_self_of w.routines i _ _ hi, Or.inl rfl⟩
  · intro r hr e hp
    simp only [outcomes_append, outcomes, List.mem_append, List.mem_singleton]
    rcases List.mem_or_eq_of_mem_set hr with h1 | h1
    · exact Or.inl (h.mem_out r h1 e hp)
    · subst h1
      right
      simpa [pastUpdate, eq_comm] using hp
  · intro r hr e hp hne
    rcases List.mem_or_eq_of_mem_set hr with h1 | h1
    · exact h.halted r h1 e hp hne
    · subst h1; simp [pastStop] at hp

theorem inv_stopStmt (w : World) (i : Nat) (ps : Process) (err : GoError)
    (h : Inv w) (hi : w.routines[i]? = some ⟨ps, Pc.stop err⟩)
    (hs : err ≠ none → w.psg.stopped = true) :
    Inv { w with routines := w.routines.set i ⟨ps, Pc.exit err⟩ } := by
  have hold : err ∈ outcomes w.log :=
    h.mem_out _ (mem_of_getElem? _ _ _ hi) err (Or.inl rfl)
  constructor
  · exact h.err
  · have := countP_set live w.routines i _ ⟨ps, Pc.exit err⟩ hi
    simp only [live] at this
    simp only [h.wg]
    omega
  · exact h.stops
  · simp only [h.procs]
    exact (map_set_of_eq Routine.ps w.routines i _ ⟨ps, Pc.exit err⟩ hi rfl).symm
  · exact h.runs
  · intro e he
    obtain ⟨r, hr, hp⟩ := h.out_mem e he
    rcases mem_set_of_mem w.routines i _ ⟨ps, Pc.exit err⟩ r hi hr with h1 | h1
    · subst h1
      have : e = err := by simpa [pastUpdate, eq_comm] using hp
      subst this
      exact ⟨_, mem_set_self_of w.routines i _ _ hi, Or.inr (Or.inl rfl)⟩
    · exact ⟨r, h1, hp⟩
  · intro r hr e hp
    rcases List.mem_or_eq_of_mem_set hr with h1 | h1
    · exact h.mem_out r h1 e hp
    · subst h1
      have : e = err := by simpa [pastUpdate, eq_comm] using hp
      subst this
      exact hold
  · intro r hr e hp hne
    rcases List.mem_or_eq_of_mem_set hr with h1 | h1
    · exact h.halted r h1 e hp hne
    · subst h1
      have : e = err := by simpa [pastStop, eq_comm] using hp
      subst this
      exact hs hne

theorem inv_done (w : World) (i : Nat) (ps : Process) (err : GoError)
    (h : Inv w) (hi : w.routines[i]? = some ⟨ps, Pc.exit err⟩) :
    Inv { w with psg := { w.psg with wg := w.psg.wg - 1 },
                 routines := w.routines.set i ⟨ps, Pc.finished err⟩ } := by
  have hold : err ∈ outcomes w.log :=
    h.mem_out _ (mem_of_getElem? _ _ _ hi) err (Or.inr (Or.inl rfl))
  constructor
  · exact h.err
  · have := countP_set live w.routines i _ ⟨ps, Pc.finished err⟩ hi
    simp [live] at this
    simp only [h.wg]
    omega
  · exact h.stops
  · simp only [h.procs]
    exact (map_set_of_eq Routine.ps w.routines i _ ⟨ps, Pc.finished err⟩ hi rfl).symm
  · exact h.runs
  · intro e he
    obtain ⟨r, hr, hp⟩ := h.out_mem e he
    rcases mem_set_of_mem w.routines i _ ⟨ps, Pc.finished err⟩ r hi hr with h1 | h1
    · subst h1
      have : e = err := by simpa [pastUpdate, eq_comm] using hp
      subst this
      exact ⟨_, mem_set_self_of w.routines i _ _ hi, Or.inr (Or.inr rfl)⟩
    · exact ⟨r, h1, hp⟩
  · intro r hr e hp
    rcases List.mem_or_eq_of_mem_set hr with h1 | h1
    · exact h.mem_out r h1 e hp
    · subst h1
      have : e = err := by simpa [pastUpdate, eq_comm] using hp
      subst this
      exact hold
  · intro r hr e hp hne
    rcases List.mem_or_eq_of_mem_set hr with h1 | h1
    · exact h.halted r h1 e hp hne
    · subst h1
      have : e = err := by simpa [pastStop, eq_comm] using hp
      subst this
      exact h.halted _ (mem_of_getElem? _ _ _ hi) e (Or.inl rfl) hne
theorem inv_goroutineStep (w w1 : World) (i : Nat) (h : Inv w)
    (hs : goroutineStep w i = some w1) : Inv w1 := by
  unfold goroutineStep at hs
  split at hs
  · rename_i ps err hi
    simp only [Option.some.injEq] at hs
    subst hs
    by_cases he : err = ErrShutdown
    · simp only [he, ne_eq, not_true_eq_false, if_false]
      have := inv_recorded w i ps ErrShutdown w.psg.stopErr h (he ▸ hi)
        (by
          rw [firstFailure_append, h.err]
          by_cases hq : firstFailure (outcomes w.log) = none <;> simp [hq, ordinary])
      simpa using this
    · by_cases hn : w.psg.stopErr = none
      · have := inv_recorded w i ps err err h hi
          (by
            rw [firstFailure_append, ← h.err, hn]
            by_cases ho : ordinary err
            · simp [ho]
            · have : err = none := by
                by_contra hc
                exact ho ⟨hc, he⟩
              simp [ho, this])
        simpa [he, Group.updateStopError, hn] using this
      · have := inv_recorded w i ps err w.psg.stopErr h hi
          (by rw [firstFailure_append, ← h.err]; simp [hn])
        simpa [he, Group.updateStopError, hn] using this
  · rename_i ps err hi
    simp only [Option.some.injEq] at hs
    subst hs
    by_cases he : err = none
    · simp only [he, ne_eq, not_true_eq_false, if_false]
      exact inv_stopStmt w i ps none h (he ▸ hi) (by simp)
    · simp only [he, ne_eq, not_false_eq_true, if_true, Group.Stop]
      have h1 := inv_stopLocked _ (inv_logStop w h)
      have h2 := stopLocked_stopped { w with log := w.log ++ [Obs.groupStop] }
      have h3 : (Group.stopLocked { w with log := w.log ++ [Obs.groupStop] }).routines
          = w.routines := by
        unfold Group.stopLocked
        split <;> simp [foldl_callStop]
      exact inv_stopStmt _ i ps err h1 (by rw [h3]; exact hi) (fun _ => h2)
  · rename_i ps err hi
    simp only [Option.some.injEq] at hs
    subst hs
    exact inv_done w i ps err h hi
  · simp at hs

theorem inv_step (w w1 : World) (ev : Event) (h : Inv w)
    (hs : step w ev = some w1) : Inv w1 := by
  cases ev with
  | addAndRun ps =>
    simp only [step, Option.some.injEq] at hs
    subst hs
    exact inv_AddAndRun w ps h
  | stop =>
    simp only [step, Option.some.injEq, Group.Stop] at hs
    subst hs
    exact inv_stopLocked _ (inv_logStop w h)
  | runReturns i err =>
    simp only [step] at hs
    split at hs
    · rename_i ps hi
      simp only [Option.some.injEq] at hs
      subst hs
      exact inv_runReturns w i ps err h hi
    · simp at hs
  | advance i => exact inv_goroutineStep w w1 i h hs

theorem inv_exec (evs : List Event) (w w1 : World) (h : Inv w)
    (hs : exec w evs = some w1) : Inv w1 := by
  induction evs generalizing w with
  | nil =>
    simp only [exec, Option.some.injEq] at hs
    exact hs ▸ h
  | cons ev evs ih =>
    simp only [exec, Option.bind_eq_some] at hs
    obtain ⟨w2, h2, h3⟩ := hs
    exact ih w2 (inv_step w w2 ev h h2) h3
theorem stopLocked_frame (w : World) :
    (Group.stopLocked w).routines = w.routines ∧
    groupStops (Group.stopLocked w).log = groupStops w.log ∧
    (Group.stopLocked w).psg.stopErr = w.psg.stopErr ∧
    (Group.stopLocked w).psg.wg = w.psg.wg := by
  unfold Group.stopLocked
  split
  · simp
  · simp [foldl_callStop, groupStops_append, (obs_map_unitStop w.psg.processes).2.2.2]

theorem AddAndRun_frame (w : World) (ps : List Process) :
    groupStops (Group.AddAndRun w ps).log = groupStops w.log ∧
    (Group.AddAndRun w ps).routines.countP stopper = w.routines.countP stopper ∧
    (Group.AddAndRun w ps).psg.stopErr = w.psg.stopErr := by
  unfold Group.AddAndRun
  split
  · simp
  · simp [foldl_spawn, groupStops_append, (obs_map_run ps).2.2.2, (spawned_facts ps).2.1]

theorem goroutineStep_groupStops (w w1 : World) (i : Nat)
    (hs : goroutineStep w i = some w1) :
    groupStops w1.log + w.routines.countP stopper =
      groupStops w.log + w1.routines.countP stopper := by
  unfold goroutineStep at hs
  split at hs
  · rename_i ps err hi
    simp only [Option.some.injEq] at hs
    subst hs
    have hc := countP_set stopper w.routines i _ ⟨ps, Pc.stop err⟩ hi
    simp [stopper] at hc
    have hr : (if err ≠ ErrShutdown then Group.updateStopError w err else w).routines
        = w.routines := by
      unfold Group.updateStopError; split <;> [split; skip] <;> rfl
    have hl : (if err ≠ ErrShutdown then Group.updateStopError w err else w).log
        = w.log := by
      unfold Group.updateStopError; split <;> [split; skip] <;> rfl
    simp only [hr, hl, groupStops_append, hc]
    simp [groupStops]
  · rename_i ps err hi
    simp only [Option.some.injEq] at hs
    subst hs
    have hc := countP_set stopper w.routines i _ ⟨ps, Pc.exit err⟩ hi
    cases err with
    | none =>
      simp [stopper] at hc
      simp [hc]
    | some x =>
      simp [stopper] at hc
      obtain ⟨h1, h2, _⟩ := stopLocked_frame { w with log := w.log ++ [Obs.groupStop] }
      simp only [ne_eq, reduceCtorEq, not_false_eq_true, if_true, Group.Stop, h1, h2,
        groupStops_append, hc]
      simp only [groupStops, List.count_singleton, beq_self_eq_true, if_true]
      omega
  · rename_i ps err hi
    simp only [Option.some.injEq] at hs
    subst hs
    have hc := countP_set stopper w.routines i _ ⟨ps, Pc.finished err⟩ hi
    cases err with
    | none =>
      simp [stopper] at hc
      simp [hc]
    | some x =>
      simp [stopper] at hc
      simp [hc]
  · simp at hs

theorem step_groupStops (w w1 : World) (ev : Event) (hs : step w ev = some w1) :
    groupStops w1.log + w.routines.countP stopper =
      groupStops w.log + w1.routines.countP stopper + [ev].count Event.stop := by
  cases ev with
  | addAndRun ps =>
    simp only [step, Option.some.injEq] at hs
    subst hs
    obtain ⟨h1, h2, _⟩ := AddAndRun_frame w ps
    simp [h1, h2]
  | stop =>
    simp only [step, Option.some.injEq, Group.Stop] at hs
    subst hs
    obtain ⟨h1, h2, _⟩ := stopLocked_frame { w with log := w.log ++ [Obs.groupStop] }
    simp only [h1, h2, groupStops_append]
    simp only [groupStops, List.count_singleton, beq_self_eq_true, if_true]
    omega
  | runReturns i err =>
    simp only [step] at hs
    split at hs
    · rename_i ps hi
      simp only [Option.some.injEq] at hs
      subst hs
      have hc := countP_set stopper w.routines i _ ⟨ps, Pc.update err⟩ hi
      simp [stopper] at hc
      simp [hc]
    · simp at hs
  | advance i =>
    have := goroutineStep_groupStops w w1 i hs
    simp [this]

theorem exec_groupStops (evs : List Event) (w w1 : World) (hs : exec w evs = some w1) :
    groupStops w1.log + w.routines.countP stopper =
      groupStops w.log + w1.routines.countP stopper + evs.count Event.stop := by
  induction evs generalizing w with
  | nil =>
    simp only [exec, Option.some.injEq] at hs
    subst hs
    simp
  | cons ev evs ih =>
    simp only [exec, Option.bind_eq_some] at hs
    obtain ⟨w2, h2, h3⟩ := hs
    have a := step_groupStops w w2 ev h2
    have b := ih w2 h3
    have c : (ev :: evs).count Event.stop = [ev].count Event.stop + evs.count Event.stop := by
      rw [← List.count_append]; rfl
    omega
theorem firstFailure_cases (l : List GoError) :
    firstFailure l = none ∨ (firstFailure l ∈ l ∧ ordinary (firstFailure l)) := by
  induction l with
  | nil => left; rfl
  | cons x l ih =>
    simp only [firstFailure]
    by_cases hx : ordinary x
    · right; simp [hx]
    · simp only [hx, if_false]
      rcases ih with h | ⟨h1, h2⟩
      · left; exact h
      · right; exact ⟨List.mem_cons_of_mem _ h1, h2⟩

theorem firstFailure_ne_none (l : List GoError) (e : GoError) (he : e ∈ l)
    (ho : ordinary e) : firstFailure l ≠ none := by
  induction l with
  | nil => simp at he
  | cons x l ih =>
    simp only [firstFailure]
    by_cases hx : ordinary x
    · simp only [hx, if_true]; exact hx.1
    · simp only [hx, if_false]
      simp only [List.mem_cons] at he
      rcases he with he | he
      · exact absurd (he ▸ ho) hx
      · exact ih he

theorem firstFailure_eq_none (l : List GoError) (h : ∀ e ∈ l, ¬ ordinary e) :
    firstFailure l = none := by
  rcases firstFailure_cases l with h1 | ⟨h1, h2⟩
  · exact h1
  · exact absurd h2 (h _ h1)

theorem live_eq_false (r : Routine) : live r = false ↔ ∃ e, r.pc = Pc.finished e := by
  rcases r with ⟨ps, pc⟩
  cases pc <;> simp [live]

theorem wait_of_allFinished (w : World) (h : Inv w) (hf : allFinished w) :
    Group.Wait w = some (firstFailure (outcomes w.log)) := by
  have : w.routines.countP live = 0 := by
    rw [List.countP_eq_zero]
    intro r hr
    simp [hf r hr]
  simp [Group.Wait, h.wg, this, h.err]

theorem goroutineStep_stopErr (w w1 : World) (i : Nat) (hn : w.psg.stopErr ≠ none)
    (hs : goroutineStep w i = some w1) : w1.psg.stopErr = w.psg.stopErr := by
  unfold goroutineStep at hs
  split at hs
  · simp only [Option.some.injEq] at hs
    subst hs
    simp only [Group.updateStopError, hn, ne_eq, not_false_eq_true, if_true]
    split <;> rfl
  · simp only [Option.some.injEq] at hs
    subst hs
    split
    · exact (stopLocked_frame _).2.2.1
    · rfl
  · simp only [Option.some.injEq] at hs
    subst hs
    rfl
  · simp at hs

theorem step_stopErr (w w1 : World) (ev : Event) (hn : w.psg.stopErr ≠ none)
    (hs : step w ev = some w1) : w1.psg.stopErr = w.psg.stopErr := by
  cases ev with
  | addAndRun ps =>
    simp only [step, Option.some.injEq] at hs
    subst hs
    exact (AddAndRun_frame w ps).2.2
  | stop =>
    simp only [step, Option.some.injEq, Group.Stop] at hs
    subst hs
    exact (stopLocked_frame _).2.2.1
  | runReturns i err =>
    simp only [step] at hs
    split at hs
    · simp only [Option.some.injEq] at hs
      subst hs
      rfl
    · simp at hs
  | advance i => exact goroutineStep_stopErr w w1 i hn hs

theorem exec_stopErr (evs : List Event) (w w1 : World) (hn : w.psg.stopErr ≠ none)
    (hs : exec w evs = some w1) : w1.psg.stopErr = w.psg.stopErr := by
  induction evs generalizing w with
  | nil =>
    simp only [exec, Option.some.injEq] at hs
    rw [hs]
  | cons ev evs ih =>
    simp only [exec, Option.bind_eq_some] at hs
    obtain ⟨w2, h2, h3⟩ := hs
    have a := step_stopErr w w2 ev hn h2
    rw [← a]
    exact ih w2 (a ▸ hn) h3
theorem outcomes_iff_finished (w : World) (h : Inv w) (hf : allFinished w) (e : GoError) :
    e ∈ outcomes w.log ↔ ∃ r ∈ w.routines, r.pc = Pc.finished e := by
  constructor
  · intro he
    obtain ⟨r, hr, hp⟩ := h.out_mem e he
    obtain ⟨e1, h1⟩ := (live_eq_false r).1 (hf r hr)
    refine ⟨r, hr, ?_⟩
    rcases hp with hp | hp | hp
    · rw [h1] at hp; cases hp
    · rw [h1] at hp; cases hp
    · exact hp
  · rintro ⟨r, hr, hp⟩
    exact h.mem_out r hr e (Or.inr (Or.inr hp))

/-- C1: first-writer-wins. In every state reachable from `NewGroup` the
remembered error is the first recorded outcome that is neither nil nor
`ErrShutdown` (nil if there is none), and once all goroutines have finished
`Wait` returns this value, the recorded outcomes being exactly those the units
returned; a non-nil remembered error is changed by no later schedule of
`AddAndRun`, `Stop` and goroutine steps; and when units returned two distinct
ordinary failures `E1` and `E2` (the others nil or `ErrShutdown`), `Wait`
returns one of the two and never nil. -/
theorem Group_first_writer_wins :
    (∀ (evs : List Event) (w : World), exec NewGroup evs = some w →
      w.psg.stopErr = firstFailure (outcomes w.log) ∧
      (allFinished w →
        Group.Wait w = some (firstFailure (outcomes w.log)) ∧
        ∀ e, e ∈ outcomes w.log ↔ ∃ r ∈ w.routines, r.pc = Pc.finished e)) ∧
    (∀ (evs : List Event) (w w1 : World), w.psg.stopErr ≠ none →
      exec w evs = some w1 → w1.psg.stopErr = w.psg.stopErr) ∧
    (∀ (evs : List Event) (w : World) (E1 E2 : GoError),
      exec NewGroup evs = some w → ordinary E1 → ordinary E2 → E1 ≠ E2 →
      (∃ r ∈ w.routines, r.pc = Pc.finished E1) →
      (∃ r ∈ w.routines, r.pc = Pc.finished E2) →
      (∀ r ∈ w.routines, r.pc = Pc.finished E1 ∨ r.pc = Pc.finished E2 ∨
        r.pc = Pc.finished none ∨ r.pc = Pc.finished ErrShutdown) →
      (Group.Wait w = some E1 ∨ Group.Wait w = some E2) ∧
        Group.Wait w ≠ some none) := by
  refine ⟨?_, ?_, ?_⟩
  · intro evs w hw
    have h := inv_exec evs NewGroup w inv_NewGroup hw
    exact ⟨h.err, fun hf =>
      ⟨wait_of_allFinished w h hf, outcomes_iff_finished w h hf⟩⟩
  · intro evs w w1 hn hw
    exact exec_stopErr evs w w1 hn hw
  · intro evs w E1 E2 hw o1 o2 hne h1 h2 hall
    have h := inv_exec evs NewGroup w inv_NewGroup hw
    have hf : allFinished w := by
      intro r hr
      rw [live_eq_false]
      rcases hall r hr with h | h | h | h <;> exact ⟨_, h⟩
    rw [wait_of_allFinished w h hf]
    have hmem := outcomes_iff_finished w h hf
    have hnn : firstFailure (outcomes w.log) ≠ none :=
      firstFailure_ne_none _ E1 ((hmem E1).2 h1) o1
    rcases firstFailure_cases (outcomes w.log) with hc | ⟨hc1, hc2⟩
    · exact absurd hc hnn
    · obtain ⟨r, hr, hp⟩ := (hmem _).1 hc1
      refine ⟨?_, by simpa using hnn⟩
      rcases hall r hr with h | h | h | h
      · left; rw [h] at hp; rw [← Pc.finished.inj hp]
      · right; rw [h] at hp; rw [← Pc.finished.inj hp]
      · rw [h] at hp
        rw [← Pc.finished.inj hp] at hc2
        exact absurd rfl hc2.1
      · rw [h] at hp
        rw [← Pc.finished.inj hp] at hc2
        exact absurd rfl hc2.2

/-- C2: benign shutdown is never reported. When every goroutine of a run from
`NewGroup` has finished, at least one with `ErrShutdown` and all the others
with nil or `ErrShutdown`, `Wait` returns nil, the Group is stopped and the
`Stop` calls made on units are exactly the managed list, which is the list of
started units; and in every reachable state the remembered error is not
`ErrShutdown`. -/
theorem Group_shutdown_never_reported :
    (∀ (evs : List Event) (w : World), exec NewGroup evs = some w →
      (∃ r ∈ w.routines, r.pc = Pc.finished ErrShutdown) →
      (∀ r ∈ w.routines, r.pc = Pc.finished ErrShutdown ∨ r.pc = Pc.finished none) →
      Group.Wait w = some none ∧ w.psg.stopped = true ∧
        unitStops w.log = w.psg.processes ∧
        w.psg.processes = w.routines.map Routine.ps) ∧
    (∀ (evs : List Event) (w : World), exec NewGroup evs = some w →
      w.psg.stopErr ≠ ErrShutdown) := by
  refine ⟨?_, ?_⟩
  · intro evs w hw hex hall
    have h := inv_exec evs NewGroup w inv_NewGroup hw
    have hf : allFinished w := by
      intro r hr
      rw [live_eq_false]
      rcases hall r hr with h | h <;> exact ⟨_, h⟩
    have hmem := outcomes_iff_finished w h hf
    have hnone : firstFailure (outcomes w.log) = none := by
      apply firstFailure_eq_none
      intro e he ho
      obtain ⟨r, hr, hp⟩ := (hmem e).1 he
      rcases hall r hr with h | h
      · rw [h] at hp
        exact ho.2 (Pc.finished.inj hp).symm
      · rw [h] at hp
        exact ho.1 (Pc.finished.inj hp).symm
    obtain ⟨r, hr, hp⟩ := hex
    have hst : w.psg.stopped = true :=
      h.halted r hr ErrShutdown (Or.inr hp) (by simp [ErrShutdown])
    refine ⟨by rw [wait_of_allFinished w h hf, hnone], hst, ?_, h.procs⟩
    simpa [hst] using h.stops
  · intro evs w hw
    have h := inv_exec evs NewGroup w inv_NewGroup hw
    rw [h.err]
    rcases firstFailure_cases (outcomes w.log) with hc | ⟨_, hc2⟩
    · rw [hc]; simp [ErrShutdown]
    · exact hc2.2

/-- C3: single failure cascade. In a run from `NewGroup` without external
`Stop` in which every goroutine has finished, exactly one with an ordinary
failure `E` and all the others with nil, `psg.Stop()` was invoked exactly once,
the `Stop` calls made on units are exactly the managed list (one call per
entry, in order), the managed list is the list of started units, and `Wait`
returns `E`. -/
theorem Group_single_failure_cascade (evs : List Event) (w : World)
    (l1 l2 : List Routine) (p : Process) (E : GoError)
    (hw : exec NewGroup evs = some w) (hext : Event.stop ∉ evs)
    (hE : ordinary E)
    (hr : w.routines = l1 ++ { ps := p, pc := Pc.finished E } :: l2)
    (hnil : ∀ r ∈ l1 ++ l2, r.pc = Pc.finished none) :
    groupStops w.log = 1 ∧
    unitStops w.log = w.psg.processes ∧
    w.psg.processes = w.routines.map Routine.ps ∧
    started w.log = w.routines.map Routine.ps ∧
    Group.Wait w = some E := by
  have h := inv_exec evs NewGroup w inv_NewGroup hw
  have hall : ∀ r ∈ w.routines, r.pc = Pc.finished E ∨ r.pc = Pc.finished none := by
    intro r hr1
    rw [hr] at hr1
    simp only [List.mem_append, List.mem_cons] at hr1
    rcases hr1 with h1 | h1 | h1
    · exact Or.inr (hnil r (by simp [h1]))
    · left; rw [h1]
    · exact Or.inr (hnil r (by simp [h1]))
  have hp : ({ ps := p, pc := Pc.finished E } : Routine) ∈ w.routines := by
    rw [hr]; simp
  have hf : allFinished w := by
    intro r hr1
    rw [live_eq_false]
    rcases hall r hr1 with h | h <;> exact ⟨_, h⟩
  have hmem := outcomes_iff_finished w h hf
  have hst : w.psg.stopped = true := h.halted _ hp E (Or.inr rfl) hE.1
  have hcount := exec_groupStops evs NewGroup w hw
  have hzero : ∀ l : List Routine, (∀ r ∈ l, r.pc = Pc.finished none) →
      l.countP stopper = 0 := by
    intro l hl
    rw [List.countP_eq_zero]
    intro r hr1
    have := hl r hr1
    rcases r with ⟨q, pc⟩
    simp only at this
    simp [stopper, this]
  have hone : stopper { ps := p, pc := Pc.finished E } = true := by
    cases E with
    | none => exact absurd rfl hE.1
    | some x => rfl
  have hc : w.routines.countP stopper = 1 := by
    rw [hr, List.countP_append, List.countP_cons,
      hzero l1 (fun r h1 => hnil r (by simp [h1])),
      hzero l2 (fun r h1 => hnil r (by simp [h1])), hone]
    simp
  refine ⟨?_, by simpa [hst] using h.stops, h.procs, by rw [h.runs, h.procs], ?_⟩
  · rw [List.count_eq_zero_of_not_mem hext, hc] at hcount
    simpa [NewGroup, groupStops] using hcount
  · rw [wait_of_allFinished w h hf]
    rcases firstFailure_cases (outcomes w.log) with hc | ⟨hc1, hc2⟩
    · exact absurd hc (firstFailure_ne_none _ E ((hmem E).2 ⟨_, hp, rfl⟩) hE)
    · obtain ⟨r, hr1, hp1⟩ := (hmem _).1 hc1
      rcases hall r hr1 with h1 | h1
      · rw [h1] at hp1
        rw [← Pc.finished.inj hp1]
      · rw [h1] at hp1
        rw [← Pc.finished.inj hp1] at hc2
        exact absurd rfl hc2.1
/-- Witness of C1 on `schedTwoFailures`: the failure of the second unit is recorded
first and is what `Wait` returns; it survives the rest of the schedule. -/
theorem Group_first_writer_wins_witness :
    (worldTwoFailures.psg.stopErr = firstFailure (outcomes worldTwoFailures.log) ∧
      Group.Wait worldTwoFailures = some (firstFailure (outcomes worldTwoFailures.log))) ∧
    worldTwoFailures.psg.stopErr = worldRecorded.psg.stopErr ∧
    ((Group.Wait worldTwoFailures = some errA ∨ Group.Wait worldTwoFailures = some errB) ∧
      Group.Wait worldTwoFailures ≠ some none) :=
  ⟨⟨(Group_first_writer_wins.1 schedTwoFailures worldTwoFailures (by rfl)).1,
    ((Group_first_writer_wins.1 schedTwoFailures worldTwoFailures (by rfl)).2
      (by decide)).1⟩,
   Group_first_writer_wins.2.1 (schedTwoFailures.drop 4) worldRecorded worldTwoFailures
     (by decide) (by rfl),
   Group_first_writer_wins.2.2 schedTwoFailures worldTwoFailures errA errB (by rfl)
     (by decide) (by decide) (by decide) (by decide) (by decide) (by decide)⟩

/-- Witness of C2 on `schedShutdown`. -/
theorem Group_shutdown_never_reported_witness :
    (Group.Wait worldShutdown = some none ∧ worldShutdown.psg.stopped = true ∧
      unitStops worldShutdown.log = worldShutdown.psg.processes ∧
      worldShutdown.psg.processes = worldShutdown.routines.map Routine.ps) ∧
    worldShutdown.psg.stopErr ≠ ErrShutdown :=
  ⟨Group_shutdown_never_reported.1 schedShutdown worldShutdown (by rfl)
     (by decide) (by decide),
   Group_shutdown_never_reported.2 schedShutdown worldShutdown (by rfl)⟩

/-- Witness of C3 on `schedOneFailure`. -/
theorem Group_single_failure_cascade_witness :
    groupStops worldOneFailure.log = 1 ∧
    unitStops worldOneFailure.log = worldOneFailure.psg.processes ∧
    worldOneFailure.psg.processes = worldOneFailure.routines.map Routine.ps ∧
    started worldOneFailure.log = worldOneFailure.routines.map Routine.ps ∧
    Group.Wait worldOneFailure = some errA :=
  Group_single_failure_cascade schedOneFailure worldOneFailure
    [{ ps := 10, pc := Pc.finished none }] [{ ps := 30, pc := Pc.finished none }] 20 errA
    (by rfl) (by decide) (by decide) (by rfl) (by decide)
/-- C4: `AddAndRun` on a stopped Group changes nothing: the managed list, the
stopped flag, the remembered error, the wait counter, the goroutines and the
log of calls are those before, so no unit is stored and no `Run` is invoked.
On a Group that is not stopped it appends the units to the managed list in
argument order, adds their number to the wait counter and starts one goroutine
per unit, in argument order, leaving flag and remembered error alone. -/
theorem Group_AddAndRun_contract :
    (∀ (w : World) (ps : List Process), w.psg.stopped = true →
      Group.AddAndRun w ps = w ∧ step w (Event.addAndRun ps) = some w) ∧
    (∀ (w : World) (ps : List Process), w.psg.stopped = false →
      (Group.AddAndRun w ps).psg.processes = w.psg.processes ++ ps ∧
      (Group.AddAndRun w ps).psg.wg = w.psg.wg + ps.length ∧
      (Group.AddAndRun w ps).routines =
        w.routines ++ ps.map (fun p => { ps := p, pc := Pc.run }) ∧
      (Group.AddAndRun w ps).log = w.log ++ ps.map Obs.run ∧
      started (Group.AddAndRun w ps).log = started w.log ++ ps ∧
      (Group.AddAndRun w ps).psg.stopped = false ∧
      (Group.AddAndRun w ps).psg.stopErr = w.psg.stopErr) := by
  refine ⟨?_, ?_⟩
  · intro w ps hs
    have : Group.AddAndRun w ps = w := by simp [Group.AddAndRun, hs]
    exact ⟨this, by simp [step, this]⟩
  · intro w ps hs
    simp [Group.AddAndRun, hs, foldl_spawn, started_append, (obs_map_run ps).2.2.1]

/-- Witness of C4: a late `AddAndRun` on a stopped Group, and `AddAndRun` of
two units on the new Group. -/
theorem Group_AddAndRun_contract_witness :
    (Group.AddAndRun worldStopped [20, 30] = worldStopped ∧
      step worldStopped (Event.addAndRun [20, 30]) = some worldStopped) ∧
    ((Group.AddAndRun NewGroup [20, 30]).psg.processes = NewGroup.psg.processes ++ [20, 30] ∧
      (Group.AddAndRun NewGroup [20, 30]).psg.wg = NewGroup.psg.wg + [20, 30].length ∧
      (Group.AddAndRun NewGroup [20, 30]).routines =
        NewGroup.routines ++ [20, 30].map (fun p => { ps := p, pc := Pc.run }) ∧
      (Group.AddAndRun NewGroup [20, 30]).log = NewGroup.log ++ [20, 30].map Obs.run ∧
      started (Group.AddAndRun NewGroup [20, 30]).log = started NewGroup.log ++ [20, 30] ∧
      (Group.AddAndRun NewGroup [20, 30]).psg.stopped = false ∧
      (Group.AddAndRun NewGroup [20, 30]).psg.stopErr = NewGroup.psg.stopErr) :=
  ⟨Group_AddAndRun_contract.1 worldStopped [20, 30] (by rfl),
   Group_AddAndRun_contract.2 NewGroup [20, 30] (by rfl)⟩

theorem Cron_Stop_twice (c c1 : Cron) (r : GoError)
    (h : Cron.Stop c = Except.ok (c1, r)) :
    r = none ∧ Cron.Stop c1 = Except.ok (c1, none) := by
  unfold Cron.Stop CompareAndSwapUint32 at h
  by_cases h0 : c.stopped = 0
  · simp only [h0, if_true] at h
    unfold Chan.close at h
    by_cases hc : c.done.closed = true
    · simp [hc] at h
    · simp only [hc, Bool.false_eq_true, if_false, Except.ok.injEq, Prod.mk.injEq] at h
      obtain ⟨h1, h2⟩ := h
      subst h1
      exact ⟨h2.symm, by simp [Cron.Stop, CompareAndSwapUint32]⟩
  · simp only [h0, if_false, Bool.false_eq_true, Except.ok.injEq, Prod.mk.injEq] at h
    obtain ⟨h1, h2⟩ := h
    subst h1
    exact ⟨h2.symm, by simp [Cron.Stop, CompareAndSwapUint32, h0]⟩

theorem Shutdown_Stop_twice (s s1 : Shutdown) (r : GoError)
    (h : Shutdown.Stop s = Except.ok (s1, r)) :
    r = none ∧ Shutdown.Stop s1 = Except.ok (s1, none) := by
  unfold Shutdown.Stop Once.Do at h
  by_cases h0 : s.once.done = true
  · simp only [h0, if_true, Except.ok.injEq, Prod.mk.injEq] at h
    obtain ⟨h1, h2⟩ := h
    subst h1
    exact ⟨h2.symm, by simp [Shutdown.Stop, Once.Do, h0]⟩
  · simp only [h0, Bool.false_eq_true, if_false] at h
    unfold Chan.close at h
    by_cases hc : s.done.closed = true
    · simp [hc] at h
    · simp only [hc, Bool.false_eq_true, if_false, Except.ok.injEq, Prod.mk.injEq] at h
      obtain ⟨h1, h2⟩ := h
      subst h1
      exact ⟨h2.symm, by simp [Shutdown.Stop, Once.Do]⟩

theorem Group_Stop_twice (w : World) : Group.Stop (Group.Stop w) = Group.Stop w := by
  have h := stopLocked_stopped w
  simp only [Group.Stop]
  generalize Group.stopLocked w = w1 at h
  simp [Group.stopLocked, h]

/-- C5: `Stop` is idempotent. For the Group, a second `Stop` returns the very
state the first one left: no further `Stop` call on a unit is logged, stopped
flag and remembered error are unchanged. For Cron and Shutdown, whenever a
`Stop` call returns, it returns nil and a second `Stop` returns nil too, leaves
the state as it is and so does not close the channel again; and the first
`Stop` on a new Cron or Shutdown does return, closing `done`. -/
theorem Stop_idempotent :
    (∀ w : World, Group.Stop (Group.Stop w) = Group.Stop w ∧
      unitStops (Group.Stop (Group.Stop w)).log = unitStops (Group.Stop w).log ∧
      (Group.Stop w).psg.stopped = true) ∧
    (∀ (c c1 : Cron) (r : GoError), Cron.Stop c = Except.ok (c1, r) →
      r = none ∧ Cron.Stop c1 = Except.ok (c1, none)) ∧
    (∀ p : Duration, Cron.Stop (NewCron p) =
      Except.ok ({ period := p, stopped := 1, done := { closed := true },
                   tickerFactory := TickerFactory.DefaultTickerFactory }, none)) ∧
    (∀ (s s1 : Shutdown) (r : GoError), Shutdown.Stop s = Except.ok (s1, r) →
      r = none ∧ Shutdown.Stop s1 = Except.ok (s1, none)) ∧
    (∀ g : Duration, Shutdown.Stop (NewShutdown g) =
      Except.ok ({ gracePeriod := g, sig := none, once := { done := true },
                   done := { closed := true } }, none)) := by
  refine ⟨?_, Cron_Stop_twice, ?_, Shutdown_Stop_twice, ?_⟩
  · intro w
    exact ⟨Group_Stop_twice w, by rw [Group_Stop_twice], stopLocked_stopped w⟩
  · intro p; rfl
  · intro g; rfl

/-- Witness of C5 on a new Cron with period 5 and a new Shutdown with grace
period 30. -/
theorem Stop_idempotent_witness :
    ((none : GoError) = none ∧
      Cron.Stop { period := 5, stopped := 1, done := { closed := true },
                  tickerFactory := TickerFactory.DefaultTickerFactory } =
        Except.ok ({ period := 5, stopped := 1, done := { closed := true },
                     tickerFactory := TickerFactory.DefaultTickerFactory }, none)) ∧
    ((none : GoError) = none ∧
      Shutdown.Stop { gracePeriod := 30, sig := none, once := { done := true },
                      done := { closed := true } } =
        Except.ok ({ gracePeriod := 30, sig := none, once := { done := true },
                     done := { closed := true } }, none)) :=
  ⟨Stop_idempotent.2.1 (NewCron 5) _ none (by rfl),
   Stop_idempotent.2.2.2.1 (NewShutdown 30) _ none (by rfl)⟩
theorem loop_calls (c : Cron) (job : CronJob) (evs : List Wake) (n : Nat)
    (r : GoError × List Call) (h : Cron.loop c job n evs = some r) :
    Call.jobEnd ∉ r.2 ∧ Call.tickerStop ∉ r.2 ∧
    r.2.count Call.jobExec = r.2.count Call.recvTick := by
  induction evs generalizing n r with
  | nil =>
    simp only [Cron.loop] at h
    split at h
    · simp only [Option.some.injEq] at h
      subst h
      simp
    · simp at h
  | cons ev evs ih =>
    cases ev with
    | stop =>
      simp only [Cron.loop, Option.some.injEq] at h
      subst h
      simp
    | tick =>
      simp only [Cron.loop] at h
      split at h
      · simp only [Option.some.injEq] at h
        subst h
        simp
      · simp only [Option.map_eq_some'] at h
        obtain ⟨r1, h1, h2⟩ := h
        subst h2
        obtain ⟨a, b, d⟩ := ih (n + 1) r1 h1
        simp [a, b, d]

theorem loop_ticks (c : Cron) (job : CronJob) (k m : Nat) (rest : List Wake)
    (h : ∀ i, m ≤ i → i < m + k → job.Exec i = none) :
    Cron.loop c job m (List.replicate k Wake.tick ++ rest) =
      (Cron.loop c job (m + k) rest).map fun r => (r.1, ticks k ++ r.2) := by
  induction k generalizing m with
  | zero => simp [ticks]
  | succ k ih =>
    have h0 : job.Exec m = none := h m (le_refl m) (by omega)
    have h1 := ih (m + 1) (fun i hi hj => h i (by omega) (by omega))
    have h2 : Cron.loop c job (m + 1) ((List.replicate k Wake.tick).append rest) =
        (Cron.loop c job (m + 1 + k) rest).map fun r => (r.1, ticks k ++ r.2) := h1
    have h3 : m + 1 + k = m + (k + 1) := by omega
    simp only [List.replicate_succ, List.cons_append, Cron.loop, h0, h2, Option.map_map, h3]
    rfl

theorem ticks_count (k : Nat) :
    (ticks k).count Call.jobExec = k ∧ (ticks k).count Call.recvTick = k ∧
    (ticks k).count Call.jobEnd = 0 := by
  induction k with
  | zero => simp [ticks]
  | succ k ih =>
    obtain ⟨a, b, d⟩ := ih
    simp [ticks, a, b, d]

theorem ticks_snoc (k : Nat) :
    ticks (k + 1) = ticks k ++ [Call.recvTick, Call.jobExec] := by
  induction k with
  | zero => rfl
  | succ k ih =>
    have : ticks (k + 1 + 1) = Call.recvTick :: Call.jobExec :: ticks (k + 1) := rfl
    conv_lhs => rw [this, ih]
    rfl

theorem loop_fail (c : Cron) (job : CronJob) (k m : Nat) (rest : List Wake) (e : Err)
    (h : ∀ i, m ≤ i → i < m + k → job.Exec i = none)
    (he : job.Exec (m + k) = some e) :
    Cron.loop c job m (List.replicate (k + 1) Wake.tick ++ rest) =
      some (some e, ticks (k + 1)) := by
  have h1 : List.replicate (k + 1) Wake.tick ++ rest =
      List.replicate k Wake.tick ++ (Wake.tick :: rest) := by
    rw [List.replicate_succ']
    simp
  rw [h1, loop_ticks c job k m _ h]
  simp [Cron.loop, he, ticks_snoc]

theorem loop_closed (c : Cron) (job : CronJob) (hc : c.done.closed = true)
    (evs : List Wake) (n : Nat) : ∃ r, Cron.loop c job n evs = some r := by
  induction evs generalizing n with
  | nil => exact ⟨(none, [Call.recvDone]), by simp [Cron.loop, hc]⟩
  | cons ev evs ih =>
    cases ev with
    | stop => exact ⟨(none, [Call.recvDone]), by simp [Cron.loop]⟩
    | tick =>
      cases he : job.Exec n with
      | some e => exact ⟨(some e, [Call.recvTick, Call.jobExec]), by simp [Cron.loop, he]⟩
      | none =>
        obtain ⟨r, hr⟩ := ih (n + 1)
        exact ⟨(r.1, Call.recvTick :: Call.jobExec :: r.2), by simp [Cron.loop, he, hr]⟩

theorem loop_head (c : Cron) (job : CronJob) (evs : List Wake) (n : Nat)
    (r : GoError × List Call) (h : Cron.loop c job n evs = some r) :
    (∃ x rest, r.2 = x :: rest ∧ (x = Call.recvTick ∨ x = Call.recvDone)) ∧
    ∀ q, Call.jobBegin q ∉ r.2 := by
  induction evs generalizing n r with
  | nil =>
    simp only [Cron.loop] at h
    split at h
    · simp only [Option.some.injEq] at h
      subst h
      exact ⟨⟨_, _, rfl, Or.inr rfl⟩, by simp⟩
    · simp at h
  | cons ev evs ih =>
    cases ev with
    | stop =>
      simp only [Cron.loop, Option.some.injEq] at h
      subst h
      exact ⟨⟨_, _, rfl, Or.inr rfl⟩, by simp⟩
    | tick =>
      simp only [Cron.loop] at h
      split at h
      · simp only [Option.some.injEq] at h
        subst h
        exact ⟨⟨_, _, rfl, Or.inl rfl⟩, by simp⟩
      · simp only [Option.map_eq_some'] at h
        obtain ⟨r1, h1, h2⟩ := h
        subst h2
        obtain ⟨_, b⟩ := ih (n + 1) r1 h1
        exact ⟨⟨_, _, rfl, Or.inl rfl⟩, by simpa using b⟩

theorem Create_error (f : TickerFactory) (p : Duration) (q : Panic)
    (h : f.Create p = Except.error q) :
    q = Panic.nonPositiveInterval ∧ f = TickerFactory.DefaultTickerFactory ∧ p ≤ 0 := by
  cases f with
  | DefaultTickerFactory =>
    simp only [TickerFactory.Create, NewTicker] at h
    split at h
    · rename_i hp
      simp only [Except.error.injEq] at h
      exact ⟨h.symm, rfl, hp⟩
    · simp at h
  | TestTickerFactory => simp [TickerFactory.Create] at h

theorem Create_NewCron (p : Duration) (hp : 0 < p) :
    (NewCron p).tickerFactory.Create (NewCron p).period = Except.ok (Ticker.TimeTicker p) := by
  have : ¬ p ≤ 0 := not_le.mpr hp
  simp [NewCron, TickerFactory.Create, NewTicker, this]

theorem Run_of_Create (c : Cron) (job : CronJob) (evs : List Wake) (t : Ticker)
    (hc : c.tickerFactory.Create c.period = Except.ok t) :
    Cron.Run c job evs = (Cron.body c job evs).map fun r =>
      (Exit.returned r.1,
        Call.tickerCreate c.period :: (r.2 ++ [Call.jobEnd, Call.tickerStop])) := by
  simp [Cron.Run, hc]

theorem body_calls (c : Cron) (job : CronJob) (evs : List Wake)
    (r : GoError × List Call) (h : Cron.body c job evs = some r) :
    Call.jobEnd ∉ r.2 ∧ Call.tickerStop ∉ r.2 := by
  unfold Cron.body at h
  split at h
  · simp only [Option.some.injEq] at h
    subst h
    simp
  · split at h
    · simp only [Option.some.injEq] at h
      subst h
      simp
    · simp only [Option.map_eq_some'] at h
      obtain ⟨r1, h1, h2⟩ := h
      subst h2
      obtain ⟨a, b, _⟩ := loop_calls c job evs 1 r1 h1
      simp [a, b]

/-- C6, as amended: whenever `Cron.Run` ends, it either returns or it is the
panic of the ticker creation (default factory with a period not above zero).
When it returns (whatever `Begin` and the `Exec` calls return, whatever the
`select`s receive), the ticker was created and the calls made end with `End`
followed by `Stop` of the ticker, neither occurs before, so each is invoked
exactly once and `End` comes after every `Begin` and `Exec` call. On the panic
exit the ticker creation is the only call made. -/
theorem Cron_End_exactly_once (c : Cron) (job : CronJob) (evs : List Wake)
    (ex : Exit) (calls : List Call)
    (h : Cron.Run c job evs = some (ex, calls)) :
    ((∃ err, ex = Exit.returned err) ∧
      (∃ t, c.tickerFactory.Create c.period = Except.ok t) ∧
      (∃ pre, calls = pre ++ [Call.jobEnd, Call.tickerStop] ∧
        Call.jobEnd ∉ pre ∧ Call.tickerStop ∉ pre) ∧
      calls.count Call.jobEnd = 1 ∧ calls.count Call.tickerStop = 1) ∨
    (ex = Exit.panicked Panic.nonPositiveInterval ∧
      c.tickerFactory = TickerFactory.DefaultTickerFactory ∧ c.period ≤ 0 ∧
      calls = [Call.tickerCreate c.period]) := by
  cases hc : c.tickerFactory.Create c.period with
  | error q =>
    right
    obtain ⟨h1, h2, h3⟩ := Create_error _ _ q hc
    simp only [Cron.Run, hc, Option.some.injEq, Prod.mk.injEq] at h
    exact ⟨by rw [← h.1, h1], h2, h3, h.2.symm⟩
  | ok t =>
    left
    rw [Run_of_Create c job evs t hc] at h
    simp only [Option.map_eq_some', Prod.mk.injEq] at h
    obtain ⟨r, hr, he, hcalls⟩ := h
    obtain ⟨a, b⟩ := body_calls c job evs r hr
    refine ⟨⟨r.1, he.symm⟩, ⟨t, rfl⟩, ⟨Call.tickerCreate c.period :: r.2, ?_, ?_, ?_⟩, ?_, ?_⟩
    · rw [← hcalls]; simp
    · simp [a]
    · simp [b]
    · rw [← hcalls]
      simp [List.count_cons, List.count_eq_zero_of_not_mem a]
    · rw [← hcalls]
      simp [List.count_cons, List.count_eq_zero_of_not_mem b]

/-- Witness of C6: period 5, three ticks then the stop-signal, the third `Exec`
failing. -/
theorem Cron_End_exactly_once_witness :
    ((∃ err, Exit.returned errB = Exit.returned err) ∧
      (∃ t, (NewCron 5).tickerFactory.Create (NewCron 5).period = Except.ok t) ∧
      (∃ pre, [Call.tickerCreate 5, Call.jobBegin 5, Call.jobExec, Call.recvTick,
          Call.jobExec, Call.recvTick, Call.jobExec, Call.jobEnd, Call.tickerStop] =
          pre ++ [Call.jobEnd, Call.tickerStop] ∧
        Call.jobEnd ∉ pre ∧ Call.tickerStop ∉ pre) ∧
      [Call.tickerCreate 5, Call.jobBegin 5, Call.jobExec, Call.recvTick,
          Call.jobExec, Call.recvTick, Call.jobExec, Call.jobEnd,
          Call.tickerStop].count Call.jobEnd = 1 ∧
      [Call.tickerCreate 5, Call.jobBegin 5, Call.jobExec, Call.recvTick,
          Call.jobExec, Call.recvTick, Call.jobExec, Call.jobEnd,
          Call.tickerStop].count Call.tickerStop = 1) ∨
    (Exit.returned errB = Exit.panicked Panic.nonPositiveInterval ∧
      (NewCron 5).tickerFactory = TickerFactory.DefaultTickerFactory ∧
      (NewCron 5).period ≤ 0 ∧
      [Call.tickerCreate 5, Call.jobBegin 5, Call.jobExec, Call.recvTick,
          Call.jobExec, Call.recvTick, Call.jobExec, Call.jobEnd, Call.tickerStop] =
        [Call.tickerCreate (NewCron 5).period]) :=
  Cron_End_exactly_once (NewCron 5) jobThirdFails
    [Wake.tick, Wake.tick, Wake.tick, Wake.stop] (Exit.returned errB) _ (by rfl)

/-- Counterexample to C6 as stated: with period 0 the ticker creation of the
Cron built by `NewCron` panics, so `Run` ends having invoked neither `End` nor
`Stop` of the ticker. -/
theorem Cron_End_exactly_once_counterexample :
    Cron.Run (NewCron 0) jobOk [Wake.stop] =
      some (Exit.panicked Panic.nonPositiveInterval, [Call.tickerCreate 0]) ∧
    [Call.tickerCreate 0].count Call.jobEnd = 0 ∧
    [Call.tickerCreate 0].count Call.tickerStop = 0 := by
  refine ⟨by rfl, by decide, by decide⟩
/-- C7, as amended: when the ticker is created (with the default factory: when
the period is above zero) and `Begin` returns a non-nil error `e`, `Cron.Run`
returns `e` whatever the `select` could receive, and the calls made are: create
the ticker, `Begin`, `End`, `Stop` of the ticker; so `Exec` is invoked zero
times and `End` exactly once. A Cron built by `NewCron` with a period above
zero does create its ticker. -/
theorem Cron_Begin_failure (c : Cron) (job : CronJob) (evs : List Wake) (e : Err)
    (t : Ticker) (hc : c.tickerFactory.Create c.period = Except.ok t)
    (h : job.Begin c.period = some e) :
    Cron.Run c job evs = some (Exit.returned (some e),
      [Call.tickerCreate c.period, Call.jobBegin c.period, Call.jobEnd, Call.tickerStop]) ∧
    [Call.tickerCreate c.period, Call.jobBegin c.period, Call.jobEnd,
      Call.tickerStop].count Call.jobExec = 0 ∧
    [Call.tickerCreate c.period, Call.jobBegin c.period, Call.jobEnd,
      Call.tickerStop].count Call.jobEnd = 1 ∧
    (∀ p : Duration, 0 < p →
      (NewCron p).tickerFactory.Create (NewCron p).period =
        Except.ok (Ticker.TimeTicker p)) := by
  refine ⟨by simp [Run_of_Create c job evs t hc, Cron.body, h], by simp, by simp,
    Create_NewCron⟩

/-- Witness of C7 with period 5, ticks and a stop-signal pending. -/
theorem Cron_Begin_failure_witness :
    Cron.Run (NewCron 5) jobBadBegin [Wake.tick, Wake.stop] =
      some (Exit.returned (some (Err.failure 1)),
        [Call.tickerCreate 5, Call.jobBegin 5, Call.jobEnd, Call.tickerStop]) ∧
    [Call.tickerCreate 5, Call.jobBegin 5, Call.jobEnd,
      Call.tickerStop].count Call.jobExec = 0 ∧
    [Call.tickerCreate 5, Call.jobBegin 5, Call.jobEnd,
      Call.tickerStop].count Call.jobEnd = 1 ∧
    (∀ p : Duration, 0 < p →
      (NewCron p).tickerFactory.Create (NewCron p).period =
        Except.ok (Ticker.TimeTicker p)) :=
  Cron_Begin_failure (NewCron 5) jobBadBegin [Wake.tick, Wake.stop] (Err.failure 1)
    (Ticker.TimeTicker 5) (by rfl) (by rfl)

/-- Counterexample to C7 as stated: `Begin` of `jobBadBegin` would return
`errA`, but with period 0 `Run` panics at the ticker creation: it does not
return `errA` and `End` is not invoked. -/
theorem Cron_Begin_failure_counterexample :
    jobBadBegin.Begin (NewCron 0).period = errA ∧
    Cron.Run (NewCron 0) jobBadBegin [] =
      some (Exit.panicked Panic.nonPositiveInterval, [Call.tickerCreate 0]) ∧
    Cron.Run (NewCron 0) jobBadBegin [] ≠
      some (Exit.returned errA,
        [Call.tickerCreate 0, Call.jobBegin 0, Call.jobEnd, Call.tickerStop]) ∧
    [Call.tickerCreate 0].count Call.jobEnd = 0 := by
  refine ⟨by rfl, by rfl, by decide, by decide⟩

/-- C8, as amended: when the ticker is created (with the default factory: when
the period is above zero) and `Begin` succeeds, every returning `Cron.Run`
starts with: create the ticker, `Begin`, `Exec`, before any channel receive,
and makes one `Exec` call more than it receives ticks. If the `select`s receive
`k` ticks and then the stop-signal and the first `k+1` `Exec` calls succeed,
`Run` returns nil after exactly `k+1` `Exec` calls. If `Exec` call number `n`
(from 0) is the first to fail, with `e`, and at least `n` ticks are received
first, `Run` returns `e` after exactly `n+1` `Exec` calls, whatever would be
received next. -/
theorem Cron_execution_schedule (c : Cron) (job : CronJob) (t : Ticker)
    (hc : c.tickerFactory.Create c.period = Except.ok t)
    (hb : job.Begin c.period = none) :
    (∀ (evs : List Wake) (ex : Exit) (calls : List Call),
      Cron.Run c job evs = some (ex, calls) →
      (∃ rest, calls = Call.tickerCreate c.period :: Call.jobBegin c.period ::
          Call.jobExec :: rest) ∧
      calls.count Call.jobExec = 1 + calls.count Call.recvTick) ∧
    (∀ k : Nat, (∀ i, i ≤ k → job.Exec i = none) →
      Cron.Run c job (List.replicate k Wake.tick ++ [Wake.stop]) =
        some (Exit.returned none,
          Call.tickerCreate c.period :: Call.jobBegin c.period :: Call.jobExec ::
          (ticks k ++ [Call.recvDone, Call.jobEnd, Call.tickerStop])) ∧
      (Call.tickerCreate c.period :: Call.jobBegin c.period :: Call.jobExec ::
          (ticks k ++ [Call.recvDone, Call.jobEnd, Call.tickerStop])).count Call.jobExec
        = k + 1) ∧
    (∀ (n : Nat) (e : Err) (rest : List Wake), (∀ i, i < n → job.Exec i = none) →
      job.Exec n = some e →
      Cron.Run c job (List.replicate n Wake.tick ++ rest) =
        some (Exit.returned (some e),
          Call.tickerCreate c.period :: Call.jobBegin c.period :: Call.jobExec ::
          (ticks n ++ [Call.jobEnd, Call.tickerStop])) ∧
      (Call.tickerCreate c.period :: Call.jobBegin c.period :: Call.jobExec ::
          (ticks n ++ [Call.jobEnd, Call.tickerStop])).count Call.jobExec = n + 1) := by
  refine ⟨?_, ?_, ?_⟩
  · intro evs ex calls h
    rw [Run_of_Create c job evs t hc] at h
    simp only [Cron.body, hb, Option.map_eq_some', Prod.mk.injEq] at h
    obtain ⟨r, hr, _, hcalls⟩ := h
    subst hcalls
    split at hr
    · simp only [Option.some.injEq] at hr
      subst hr
      simp
    · simp only [Option.map_eq_some'] at hr
      obtain ⟨r1, h1, h2⟩ := hr
      subst h2
      obtain ⟨_, _, d⟩ := loop_calls c job evs 1 r1 h1
      refine ⟨⟨_, rfl⟩, ?_⟩
      simp [d]
      omega
  · intro k hk
    have h0 : job.Exec 0 = none := hk 0 (Nat.zero_le k)
    have h1 := loop_ticks c job k 1 [Wake.stop] (fun i _ hj => hk i (by omega))
    refine ⟨?_, ?_⟩
    · simp [Run_of_Create c job _ t hc, Cron.body, hb, h0, h1, Cron.loop]
    · simp [List.count_cons, (ticks_count k).1]
  · intro n e rest hn he
    refine ⟨?_, ?_⟩
    · cases n with
      | zero => simp [Run_of_Create c job _ t hc, Cron.body, hb, he, ticks]
      | succ m =>
        have h0 : job.Exec 0 = none := hn 0 (by omega)
        have h1 := loop_fail c job m 1 rest e (fun i _ hj => hn i (by omega))
          (by rw [Nat.add_comm]; exact he)
        simp [Run_of_Create c job _ t hc, Cron.body, hb, h0, h1]
    · simp [List.count_cons, (ticks_count n).1]

/-- Witness of C8 with period 5: a job that never fails on a tick and the
stop-signal and on three ticks and the stop-signal, and a job whose third
`Exec` fails. -/
theorem Cron_execution_schedule_witness :
    ((∃ rest, [Call.tickerCreate 5, Call.jobBegin 5, Call.jobExec, Call.recvTick,
        Call.jobExec, Call.recvDone, Call.jobEnd, Call.tickerStop] =
        Call.tickerCreate 5 :: Call.jobBegin 5 :: Call.jobExec :: rest) ∧
      [Call.tickerCreate 5, Call.jobBegin 5, Call.jobExec, Call.recvTick,
        Call.jobExec, Call.recvDone, Call.jobEnd, Call.tickerStop].count Call.jobExec =
      1 + [Call.tickerCreate 5, Call.jobBegin 5, Call.jobExec, Call.recvTick,
        Call.jobExec, Call.recvDone, Call.jobEnd, Call.tickerStop].count Call.recvTick) ∧
    (Cron.Run (NewCron 5) jobOk (List.replicate 3 Wake.tick ++ [Wake.stop]) =
        some (Exit.returned none, Call.tickerCreate 5 :: Call.jobBegin 5 :: Call.jobExec ::
          (ticks 3 ++ [Call.recvDone, Call.jobEnd, Call.tickerStop])) ∧
      (Call.tickerCreate 5 :: Call.jobBegin 5 :: Call.jobExec ::
          (ticks 3 ++ [Call.recvDone, Call.jobEnd, Call.tickerStop])).count Call.jobExec
        = 3 + 1) ∧
    (Cron.Run (NewCron 5) jobThirdFails (List.replicate 2 Wake.tick ++ [Wake.tick, Wake.stop]) =
        some (Exit.returned (some (Err.failure 2)),
          Call.tickerCreate 5 :: Call.jobBegin 5 :: Call.jobExec ::
          (ticks 2 ++ [Call.jobEnd, Call.tickerStop])) ∧
      (Call.tickerCreate 5 :: Call.jobBegin 5 :: Call.jobExec ::
          (ticks 2 ++ [Call.jobEnd, Call.tickerStop])).count Call.jobExec = 2 + 1) :=
  ⟨(Cron_execution_schedule (NewCron 5) jobOk (Ticker.TimeTicker 5) (by rfl) (by rfl)).1
      [Wake.tick, Wake.stop] (Exit.returned none) _ (by rfl),
   (Cron_execution_schedule (NewCron 5) jobOk (Ticker.TimeTicker 5) (by rfl) (by rfl)).2.1 3
      (fun _ _ => rfl),
   (Cron_execution_schedule (NewCron 5) jobThirdFails (Ticker.TimeTicker 5) (by rfl)
      (by rfl)).2.2 2 (Err.failure 2) [Wake.tick, Wake.stop]
      (by intro i hi; simp [jobThirdFails]; omega) (by rfl)⟩

/-- Counterexample to C8 as stated: `Begin` of `jobOk` succeeds, but with
period -5 `Run` panics at the ticker creation, on a tick followed by the
stop-signal: it does not return nil and `Exec` is never invoked. -/
theorem Cron_execution_schedule_counterexample :
    jobOk.Begin (NewCron (-5)).period = none ∧
    Cron.Run (NewCron (-5)) jobOk (List.replicate 1 Wake.tick ++ [Wake.stop]) =
      some (Exit.panicked Panic.nonPositiveInterval, [Call.tickerCreate (-5)]) ∧
    [Call.tickerCreate (-5)].count Call.jobExec = 0 := by
  refine ⟨by rfl, by rfl, by decide⟩
/-- C10, as amended: a Cron built by `NewCron` with a period above zero, on
which `Stop` was called before `Run`, still does one full cycle. `Run` then
returns the error of `Begin` without any `Exec`, or, `Begin` succeeding, the
error of the first `Exec`; when both succeed `Run` returns and its calls are:
create the ticker, `Begin`, `Exec`, then the first channel receive of the
`select`, with no further `Begin`; and when no tick is received `Run` returns
nil after exactly this one `Exec`. -/
theorem Cron_stopped_before_run (p : Duration) (hp : 0 < p) (c : Cron) (r : GoError)
    (job : CronJob) (evs : List Wake)
    (hs : Cron.Stop (NewCron p) = Except.ok (c, r)) :
    (∀ e : Err, job.Begin c.period = some e →
      Cron.Run c job evs = some (Exit.returned (some e),
        [Call.tickerCreate c.period, Call.jobBegin c.period, Call.jobEnd,
         Call.tickerStop])) ∧
    (∀ e : Err, job.Begin c.period = none → job.Exec 0 = some e →
      Cron.Run c job evs = some (Exit.returned (some e),
        [Call.tickerCreate c.period, Call.jobBegin c.period, Call.jobExec, Call.jobEnd,
         Call.tickerStop])) ∧
    (job.Begin c.period = none → job.Exec 0 = none →
      (∃ err x rest, Cron.Run c job evs = some (Exit.returned err,
          Call.tickerCreate c.period :: Call.jobBegin c.period :: Call.jobExec ::
            x :: rest) ∧
        (x = Call.recvTick ∨ x = Call.recvDone) ∧
        ∀ q, Call.jobBegin q ∉ x :: rest) ∧
      Cron.Run c job [] = some (Exit.returned none,
        [Call.tickerCreate c.period, Call.jobBegin c.period, Call.jobExec, Call.recvDone,
         Call.jobEnd, Call.tickerStop])) := by
  have hceq : c = { period := p, stopped := 1, done := { closed := true },
                    tickerFactory := TickerFactory.DefaultTickerFactory } := by
    have : (Except.ok ({ period := p, stopped := 1, done := { closed := true },
                         tickerFactory := TickerFactory.DefaultTickerFactory }, none) :
        Except Panic (Cron × GoError)) = Except.ok (c, r) := hs
    simp only [Except.ok.injEq, Prod.mk.injEq] at this
    exact this.1.symm
  have hc : c.done.closed = true := by rw [hceq]
  have hcr : c.tickerFactory.Create c.period = Except.ok (Ticker.TimeTicker p) := by
    rw [hceq]
    exact Create_NewCron p hp
  refine ⟨?_, ?_, ?_⟩
  · intro e hb
    simp [Run_of_Create c job evs _ hcr, Cron.body, hb]
  · intro e hb he
    simp [Run_of_Create c job evs _ hcr, Cron.body, hb, he]
  · intro hb he
    obtain ⟨r1, h1⟩ := loop_closed c job hc evs 1
    obtain ⟨⟨x, rest, hx, hrecv⟩, hbegin⟩ := loop_head c job evs 1 r1 h1
    refine ⟨⟨r1.1, x, rest ++ [Call.jobEnd, Call.tickerStop], ?_, hrecv, ?_⟩, ?_⟩
    · simp [Run_of_Create c job evs _ hcr, Cron.body, hb, he, h1, hx]
    · intro q hq
      have h2 := hbegin q
      rw [hx] at h2
      simp only [List.mem_cons, List.mem_append, List.mem_singleton] at hq h2
      rcases hq with hq | hq | hq | hq
      · exact h2 (Or.inl hq)
      · exact h2 (Or.inr hq)
      · cases hq
      · simp at hq
    · simp [Run_of_Create c job _ _ hcr, Cron.body, hb, he, Cron.loop, hc]

/-- Witness of C10: a job failing at `Begin` and a job that never fails, on a
Cron of period 5 stopped before it runs, with a tick pending. -/
theorem Cron_stopped_before_run_witness :
    Cron.Run { period := 5, stopped := 1, done := { closed := true },
               tickerFactory := TickerFactory.DefaultTickerFactory } jobBadBegin
        [Wake.tick] = some (Exit.returned (some (Err.failure 1)),
        [Call.tickerCreate 5, Call.jobBegin 5, Call.jobEnd, Call.tickerStop]) ∧
    ((∃ err x rest, Cron.Run { period := 5, stopped := 1, done := { closed := true },
                               tickerFactory := TickerFactory.DefaultTickerFactory } jobOk
          [Wake.tick] = some (Exit.returned err,
          Call.tickerCreate 5 :: Call.jobBegin 5 :: Call.jobExec :: x :: rest) ∧
        (x = Call.recvTick ∨ x = Call.recvDone) ∧
        ∀ q, Call.jobBegin q ∉ x :: rest) ∧
      Cron.Run { period := 5, stopped := 1, done := { closed := true },
                 tickerFactory := TickerFactory.DefaultTickerFactory } jobOk [] =
        some (Exit.returned none,
          [Call.tickerCreate 5, Call.jobBegin 5, Call.jobExec, Call.recvDone,
           Call.jobEnd, Call.tickerStop])) :=
  ⟨(Cron_stopped_before_run 5 (by decide) _ none jobBadBegin [Wake.tick] (by rfl)).1
      (Err.failure 1) (by rfl),
   (Cron_stopped_before_run 5 (by decide) _ none jobOk [Wake.tick] (by rfl)).2.2
      (by rfl) (by rfl)⟩

/-- Counterexample to C10 as stated: on the Cron built by `NewCron` with
period 0 and stopped before it runs, `Run` panics at the ticker creation and
invokes neither `Begin` nor `Exec`. -/
theorem Cron_stopped_before_run_counterexample :
    Cron.Stop (NewCron 0) =
      Except.ok ({ period := 0, stopped := 1, done := { closed := true },
                   tickerFactory := TickerFactory.DefaultTickerFactory }, none) ∧
    Cron.Run { period := 0, stopped := 1, done := { closed := true },
               tickerFactory := TickerFactory.DefaultTickerFactory } jobOk [] =
      some (Exit.panicked Panic.nonPositiveInterval, [Call.tickerCreate 0]) ∧
    [Call.tickerCreate 0].count (Call.jobBegin 0) = 0 ∧
    [Call.tickerCreate 0].count Call.jobExec = 0 := by
  refine ⟨by rfl, by rfl, by decide, by decide⟩
/-- C9: `Shutdown.Run` returns `ErrShutdown`, which is not nil, when its
`select` receives a signal, and nil when it receives from `done`; a `Run` that
returns has started exactly one watchdog goroutine, whose body is: sleep the
grace period, log, exit 1. Started at time `t`, the watchdog executes its exit
exactly once, at a time not before `t + gracePeriod`. On a new Shutdown a
delivered signal makes `Run` return `ErrShutdown`, and after `Stop` (no signal)
`Run` returns nil. -/
theorem Shutdown_outcome (s : Shutdown) (pick : Bool) :
    (∀ sg, Shutdown.select s pick = some (some sg) →
      Shutdown.Run s pick = some ({ s with sig := none }, ErrShutdown,
        [Effect.infof sg,
         Effect.spawn [Action.sleep s.gracePeriod, Action.errorf, Action.exit 1]])) ∧
    (Shutdown.select s pick = some none →
      Shutdown.Run s pick = some (s, none,
        [Effect.info,
         Effect.spawn [Action.sleep s.gracePeriod, Action.errorf, Action.exit 1]])) ∧
    (∀ res, Shutdown.Run s pick = some res →
      spawned res.2.2 = [[Action.sleep s.gracePeriod, Action.errorf, Action.exit 1]]) ∧
    ErrShutdown ≠ none ∧
    (∀ (lag : Nat) (t : Int),
      timeline lag t [Action.sleep s.gracePeriod, Action.errorf, Action.exit 1] =
        [(t + max s.gracePeriod 0 + lag, Action.errorf),
         (t + max s.gracePeriod 0 + lag, Action.exit 1)] ∧
      t + s.gracePeriod ≤ t + max s.gracePeriod 0 + lag) ∧
    (∀ (g : Duration) (sg : Signal),
      Shutdown.Run ((NewShutdown g).deliver sg) pick =
        some (NewShutdown g, ErrShutdown,
          [Effect.infof sg, Effect.spawn [Action.sleep g, Action.errorf, Action.exit 1]])) ∧
    (∀ (g : Duration) (s1 : Shutdown) (r : GoError),
      Shutdown.Stop (NewShutdown g) = Except.ok (s1, r) →
      Shutdown.Run s1 pick = some (s1, none,
        [Effect.info, Effect.spawn [Action.sleep g, Action.errorf, Action.exit 1]])) := by
  refine ⟨?_, ?_, ?_, ?_, ?_, ?_, ?_⟩
  · intro sg h
    simp [Shutdown.Run, h, Shutdown.ensureTermination]
  · intro h
    simp [Shutdown.Run, h, Shutdown.ensureTermination]
  · intro res h
    unfold Shutdown.Run at h
    split at h
    · simp only [Option.some.injEq] at h
      subst h
      simp [spawned, Shutdown.ensureTermination]
    · simp only [Option.some.injEq] at h
      subst h
      simp [spawned, Shutdown.ensureTermination]
    · simp at h
  · simp [ErrShutdown]
  · intro lag t
    refine ⟨by simp [timeline], ?_⟩
    have : s.gracePeriod ≤ max s.gracePeriod 0 := le_max_left _ _
    omega
  · intro g sg
    cases pick <;> rfl
  · intro g s1 r h
    have : (Except.ok ({ gracePeriod := g, sig := none, once := { done := true },
                         done := { closed := true } }, none) :
        Except Panic (Shutdown × GoError)) = Except.ok (s1, r) := h
    simp only [Except.ok.injEq, Prod.mk.injEq] at this
    rw [← this.1]
    cases pick <;> rfl

/-- Witness of C9: a Shutdown with grace period 30 holding a pending SIGTERM,
and the same after `Stop`. -/
theorem Shutdown_outcome_witness :
    Shutdown.Run ((NewShutdown 30).deliver Signal.SIGTERM) true =
      some (NewShutdown 30, ErrShutdown,
        [Effect.infof Signal.SIGTERM,
         Effect.spawn [Action.sleep 30, Action.errorf, Action.exit 1]]) ∧
    Shutdown.Run { gracePeriod := 30, sig := none, once := { done := true },
                   done := { closed := true } } true =
      some ({ gracePeriod := 30, sig := none, once := { done := true },
              done := { closed := true } }, none,
        [Effect.info, Effect.spawn [Action.sleep 30, Action.errorf, Action.exit 1]]) :=
  ⟨(Shutdown_outcome ((NewShutdown 30).deliver Signal.SIGTERM) true).1 Signal.SIGTERM
      (by rfl),
   (Shutdown_outcome (NewShutdown 30) true).2.2.2.2.2.2 30 _ none (by rfl)⟩

end process
